import Mathlib

/-!
Verification of the pomodoro-timer plugin core (timer state machine,
session logger formatting, log corrector, task parsing).

The definitions below are shallow embeddings of the TypeScript source:
`src/Timer.ts` (timer state machine), the session logger (`Logger.toText`,
`Logger.createLog`), the log corrector (`main.ts`,
`PomodoroTimerPlugin.correctLogFileTimes`) and the task resolver
(`resolveTasks` in `Tasks.ts`).  JavaScript numbers holding millisecond
amounts are modelled as `Int` (all values involved are integral),
configured lengths in minutes as `Nat`, and JavaScript strings as Lean
`String`/`List Char`.
-/

namespace Pomodoro

/-- Timer mode, `src/Timer.ts`: `export type Mode = 'WORK' | 'BREAK'`. -/
inductive Mode where
  | WORK : Mode
  | BREAK : Mode
deriving DecidableEq, Repr

/-- `src/Timer.ts`, `TimerState`.  `elapsed`, `count` and `startTime` are
millisecond quantities (JS numbers), `workLen`/`breakLen`/`duration` are
lengths in minutes. -/
structure TimerState where
  autostart : Bool
  running : Bool
  mode : Mode
  elapsed : Int
  startTime : Option Int
  inSession : Bool
  workLen : Nat
  breakLen : Nat
  count : Int
  duration : Nat
deriving DecidableEq, Repr

namespace Timer

/-- `src/Timer.ts` `toMillis`: `minutes * 60 * 1000`. -/
def toMillis (minutes : Nat) : Int := (minutes : Int) * 60 * 1000

/-- Initial timer state, from the `Timer` constructor in `src/Timer.ts`:
mode WORK, elapsed 0, not running, not in session, `startTime = null`,
`count = toMillis workLen`, `duration = workLen`. -/
def initialState (workLen breakLen : Nat) (autostart : Bool) : TimerState :=
  { autostart := autostart
    workLen := workLen
    breakLen := breakLen
    running := false
    mode := Mode.WORK
    elapsed := 0
    startTime := none
    inSession := false
    duration := workLen
    count := toMillis workLen }

/-- `src/Timer.ts` `tick(t)`: the state update performed inside
`this.update`.  Returns the new state together with the flag telling
whether `this.timeup()` is invoked afterwards (the `!pause && timeup`
condition of the source: when not running the tick is a no-op and the
`pause` flag suppresses the callback). -/
def tick (s : TimerState) (t : Int) : TimerState × Bool :=
  if s.running then
    let e := s.elapsed + t
    let e2 := if e ≥ s.count then s.count else e
    ({ s with elapsed := e2 }, decide (e2 ≥ s.count))
  else
    (s, false)

/-- `src/Timer.ts` `endSession(state)`: flips the mode (pinned to WORK when
`breakLen == 0`), recomputes `duration`/`count` for the new mode, leaves the
session (`inSession = false`, `running = false`, `startTime = null`,
`elapsed = 0`). -/
def endSession (s : TimerState) : TimerState :=
  let mode := if s.breakLen = 0 then Mode.WORK
              else if s.mode = Mode.WORK then Mode.BREAK else Mode.WORK
  let duration := if mode = Mode.WORK then s.workLen else s.breakLen
  { s with
    mode := mode
    duration := duration
    count := toMillis duration
    inSession := false
    running := false
    startTime := none
    elapsed := 0 }

/-- `src/Timer.ts` `start()`: when not in session, resets `elapsed`,
recomputes `duration`/`count` from the current mode and stamps
`startTime = now`; always sets `inSession` and `running`. -/
def start (s : TimerState) (now : Int) : TimerState :=
  let s1 :=
    if s.inSession then s
    else
      let duration := if s.mode = Mode.WORK then s.workLen else s.breakLen
      { s with
        elapsed := 0
        duration := duration
        count := toMillis duration
        startTime := some now }
  { s1 with inSession := true, running := true }

/-- `src/Timer.ts` `timeup()` state transition: performs `endSession` and,
when `autostart` was set, immediately `start`s again.  (The log-context
capture and `processLog` dispatch read the pre-`endSession` state and do
not mutate it; they are modelled separately.) -/
def timeupTrans (s : TimerState) (now : Int) : TimerState :=
  let s1 := endSession s
  if s.autostart then start s1 now else s1

/-- One full tick delivery: the `tick` state update followed, when the
timeup flag fired, by the `timeup()` transition.  Mirrors the control flow
of `Timer.tick` in `src/Timer.ts`. -/
def tickStep (s : TimerState) (t : Int) (now : Int) : TimerState × Bool :=
  let p := tick s t
  (if p.2 then timeupTrans p.1 now else p.1, p.2)

/-- `src/Timer.ts` `pause()`: `running = false`, everything else kept. -/
def pause (s : TimerState) : TimerState :=
  { s with running := false }

/-- `src/Timer.ts` `reset()`: when `elapsed >= 60000` the log context (a
copy of the pre-reset state) is captured and handed to the logger, before
any mutation; then `duration`/`count` are recomputed for the current mode
and the session state is cleared.  The second component is the log context
passed to `logger.log` (`none` when no logging happens). -/
def reset (s : TimerState) : TimerState × Option TimerState :=
  let log := if s.elapsed ≥ 60000 then some s else none
  let duration := if s.mode = Mode.WORK then s.workLen else s.breakLen
  ({ s with
      duration := duration
      count := toMillis duration
      inSession := false
      running := false
      startTime := none
      elapsed := 0 }, log)

/-- `src/Timer.ts` `toggleMode(callback)`: applies `endSession`
unconditionally (the callback only observes the result). -/
def toggleMode (s : TimerState) : TimerState :=
  endSession s

/-- `src/Timer.ts` `setupTimer()`: re-reads the configured
`workLen`/`breakLen`/`autostart` and, when neither running nor in session,
recomputes `duration`/`count` for the current mode. -/
def setupTimer (s : TimerState) (workLen breakLen : Nat) (autostart : Bool) :
    TimerState :=
  let s1 := { s with workLen := workLen, breakLen := breakLen,
                     autostart := autostart }
  if !s1.running && !s1.inSession then
    let duration := if s1.mode = Mode.WORK then s1.workLen else s1.breakLen
    { s1 with duration := duration, count := toMillis duration }
  else s1

/-- `src/Timer.ts` `remain(count, elapsed)` helper output type
(`TimerRemained`). -/
structure TimerRemained where
  millis : Int
  human : String
deriving Repr, DecidableEq

/-- Zero padding used by `remain`: `` min < 10 ? `0${min}` : min.toString() ``. -/
def intPad (n : Int) : String :=
  if n < 10 then "0" ++ toString n else toString n

/-- `src/Timer.ts` `remain(count, elapsed)`:
`remained = count - elapsed`, `min = Math.floor(remained / 60000)`,
`sec = Math.floor((remained % 60000) / 1000)`, rendered as
`` `${minStr} : ${secStr}` `` (note the spaces around the colon in the
source template literal).  `Math.floor` of a JS division is `Int.fdiv`,
and the JS `%` operator is the truncated remainder `Int.tmod`. -/
def remain (count elapsed : Int) : TimerRemained :=
  let remained := count - elapsed
  let minV := Int.fdiv remained 60000
  let secV := Int.fdiv (Int.tmod remained 60000) 1000
  { millis := remained
    human := intPad minV ++ " : " ++ intPad secV }

/-- Sequence of natural timeouts: each timeout applies the `timeup()`
transition (with the wall clock reading `now` used in case of autostart). -/
def applyTimeouts (s : TimerState) (nows : List Int) : TimerState :=
  nows.foldl timeupTrans s

/-- Mode flip, the `state.mode == 'WORK' ? 'BREAK' : 'WORK'` branch of
`endSession`. -/
def flipMode : Mode → Mode
  | Mode.WORK => Mode.BREAK
  | Mode.BREAK => Mode.WORK

/-- The invariant claimed in the spec for `TimerState`:
`0 ≤ elapsed ≤ count`, `running ⇒ inSession`, `startTime ≠ null ⇔ inSession`. -/
def Inv (s : TimerState) : Prop :=
  0 ≤ s.elapsed ∧ s.elapsed ≤ s.count
    ∧ (s.running = true → s.inSession = true)
    ∧ (s.startTime ≠ none ↔ s.inSession = true)

/-- The strengthened (inductive) invariant: additionally, outside a session
the elapsed time is zero.  This extra conjunct is what makes the invariant
preserved by `setupTimer`, which recomputes `count` from freshly
configured lengths only when not in session. -/
def InvS (s : TimerState) : Prop :=
  Inv s ∧ (s.inSession = false → s.elapsed = 0)

theorem toMillis_nonneg (m : Nat) : 0 ≤ toMillis m := by
  unfold toMillis
  positivity

instance (s : TimerState) : Decidable (Inv s) := by
  unfold Inv
  infer_instance

instance (s : TimerState) : Decidable (InvS s) := by
  unfold InvS
  infer_instance

theorem InvS_initial (wl bl : Nat) (au : Bool) : InvS (initialState wl bl au) := by
  refine ⟨⟨le_refl 0, ?_, ?_, ?_⟩, ?_⟩ <;>
    simp [initialState, toMillis_nonneg]

theorem InvS_start (s : TimerState) (now : Int) (h : InvS s) :
    InvS (start s now) := by
  obtain ⟨⟨h0, h1, h2, h3⟩, h4⟩ := h
  by_cases hin : s.inSession = true
  · have hst : s.startTime ≠ none := h3.mpr hin
    simp [start, hin, Inv, InvS, h0, h1, hst]
  · simp [start, hin, Inv, InvS, toMillis_nonneg]

theorem InvS_pause (s : TimerState) (h : InvS s) : InvS (pause s) := by
  obtain ⟨⟨h0, h1, h2, h3⟩, h4⟩ := h
  exact ⟨⟨h0, h1, by simp [pause], by simpa [pause] using h3⟩,
    by simpa [pause] using h4⟩

theorem InvS_tick (s : TimerState) (t : Int) (ht : 0 ≤ t) (h : InvS s) :
    InvS (tick s t).1 := by
  obtain ⟨⟨h0, h1, h2, h3⟩, h4⟩ := h
  by_cases hr : s.running = true
  · have hin := h2 hr
    by_cases hc : s.elapsed + t ≥ s.count
    · simp [tick, hr, hc, Inv, InvS, hin, h3]
      omega
    · simp [tick, hr, hc, Inv, InvS, hin, h3]
      omega
  · simp only [tick, hr]
    exact ⟨⟨h0, h1, h2, h3⟩, h4⟩

theorem InvS_endSession (s : TimerState) : InvS (endSession s) := by
  simp [endSession, InvS, Inv, toMillis_nonneg]

theorem InvS_timeupTrans (s : TimerState) (now : Int) :
    InvS (timeupTrans s now) := by
  unfold timeupTrans
  by_cases ha : s.autostart = true <;> simp only [ha, if_true, if_false]
  · exact InvS_start _ now (InvS_endSession s)
  · simp [ha]
    exact InvS_endSession s

theorem InvS_tickStep (s : TimerState) (t now : Int) (ht : 0 ≤ t)
    (h : InvS s) : InvS (tickStep s t now).1 := by
  unfold tickStep
  by_cases hf : (tick s t).2 = true <;> simp only [hf]
  · simp only [if_true]
    exact InvS_timeupTrans _ now
  · simp [hf]
    exact InvS_tick s t ht h

theorem InvS_reset (s : TimerState) : InvS (reset s).1 := by
  simp [reset, InvS, Inv, toMillis_nonneg]

theorem InvS_toggleMode (s : TimerState) : InvS (toggleMode s) := by
  unfold toggleMode
  exact InvS_endSession s

theorem InvS_setupTimer (s : TimerState) (wl bl : Nat) (au : Bool)
    (h : InvS s) : InvS (setupTimer s wl bl au) := by
  obtain ⟨⟨h0, h1, h2, h3⟩, h4⟩ := h
  by_cases hr : s.running = true
  · simp [setupTimer, hr, Inv, InvS]
    exact ⟨⟨h0, h1, h2 hr, h3⟩, h4⟩
  · by_cases hin : s.inSession = true
    · simp [setupTimer, hr, hin, Inv, InvS]
      exact ⟨h0, h1, h3.mpr hin⟩
    · have he : s.elapsed = 0 := h4 (by simpa using hin)
      simp [setupTimer, hr, hin, Inv, InvS, he, toMillis_nonneg, h3]

theorem flipMode_flipMode (m : Mode) : flipMode (flipMode m) = m := by
  cases m <;> rfl

theorem start_mode (s : TimerState) (now : Int) : (start s now).mode = s.mode := by
  unfold start
  by_cases hin : s.inSession = true <;> simp [hin]

theorem timeupTrans_mode (s : TimerState) (now : Int) :
    (timeupTrans s now).mode = (endSession s).mode := by
  unfold timeupTrans
  by_cases ha : s.autostart = true <;> simp [ha, start_mode]

theorem start_breakLen (s : TimerState) (now : Int) :
    (start s now).breakLen = s.breakLen := by
  unfold start
  by_cases hin : s.inSession = true <;> simp [hin]

theorem timeupTrans_breakLen (s : TimerState) (now : Int) :
    (timeupTrans s now).breakLen = s.breakLen := by
  unfold timeupTrans
  by_cases ha : s.autostart = true <;> simp [ha, start_breakLen, endSession]

theorem endSession_mode_flip (s : TimerState) (hb : 0 < s.breakLen) :
    (endSession s).mode = flipMode s.mode := by
  have hb0 : ¬ s.breakLen = 0 := by omega
  cases hm : s.mode <;> simp [endSession, hb0, hm, flipMode]

theorem endSession_mode_zero (s : TimerState) (hb : s.breakLen = 0) :
    (endSession s).mode = Mode.WORK := by
  simp [endSession, hb]

theorem applyTimeouts_cons (s : TimerState) (now : Int) (rest : List Int) :
    applyTimeouts s (now :: rest) = applyTimeouts (timeupTrans s now) rest := rfl

theorem applyTimeouts_mode_flip (nows : List Int) :
    ∀ s : TimerState, 0 < s.breakLen →
      (applyTimeouts s nows).mode
        = if nows.length % 2 = 0 then s.mode else flipMode s.mode := by
  induction nows with
  | nil => intro s _; simp [applyTimeouts]
  | cons now rest ih =>
    intro s h
    have hb : (timeupTrans s now).breakLen = s.breakLen :=
      timeupTrans_breakLen s now
    have hm : (timeupTrans s now).mode = flipMode s.mode := by
      rw [timeupTrans_mode, endSession_mode_flip s h]
    have hrec := ih (timeupTrans s now) (by rw [hb]; exact h)
    rw [applyTimeouts_cons, hrec, hm, flipMode_flipMode]
    by_cases hp : rest.length % 2 = 0
    · rw [if_pos hp, if_neg (by simp; omega)]
    · rw [if_neg hp, if_pos (by simp; omega)]

theorem applyTimeouts_mode_zero (nows : List Int) :
    ∀ s : TimerState, s.breakLen = 0 → nows ≠ [] →
      (applyTimeouts s nows).mode = Mode.WORK := by
  induction nows with
  | nil => intro s _ hne; exact absurd rfl hne
  | cons now rest ih =>
    intro s h _
    rw [applyTimeouts_cons]
    rcases rest with _ | ⟨r, rs⟩
    · show (timeupTrans s now).mode = Mode.WORK
      rw [timeupTrans_mode, endSession_mode_zero s h]
    · exact ih (timeupTrans s now) (by rw [timeupTrans_breakLen]; exact h)
        (by simp)

end Timer

open Timer

/-- C1: when the timer is not running, `tick(t)` leaves the state unchanged
and never triggers `timeup()`; when it is running, `tick(t)` adds `t` to
`elapsed` clamped (pinned) to `count`, and the `timeup()` callback fires
exactly when the new sum reaches `count`.  Once it fires (autostart off),
the session has ended (`running = false`) and any further tick is a no-op
that fires no second `timeup()` — i.e. `timeup()` is triggered exactly once,
at the moment `elapsed` reaches `count`. -/
theorem C1_tick_spec (s : TimerState) (t t2 now : Int) (ht : 0 ≤ t) :
    (s.running = false → tick s t = (s, false))
  ∧ (s.running = true →
      (tick s t).1 = { s with elapsed := min (s.elapsed + t) s.count }
      ∧ ((tick s t).2 = true ↔ s.count ≤ s.elapsed + t))
  ∧ (s.running = true → s.autostart = false → s.count ≤ s.elapsed + t →
      (tickStep s t now).1.running = false
      ∧ tick (tickStep s t now).1 t2 = ((tickStep s t now).1, false)) := by
  refine ⟨?_, ?_, ?_⟩
  · intro hr
    simp [tick, hr]
  · intro hr
    constructor
    · by_cases hc : s.elapsed + t ≥ s.count
      · have hmin : min (s.elapsed + t) s.count = s.count :=
          min_eq_right (by omega)
        simp [tick, hr, hc, hmin]
      · have hmin : min (s.elapsed + t) s.count = s.elapsed + t :=
          min_eq_left (by omega)
        simp [tick, hr, hc, hmin]
    · by_cases hc : s.elapsed + t ≥ s.count
      · simp [tick, hr, hc]
      · simp [tick, hr, hc]
  · intro hr ha hc
    have hfire : (tick s t).2 = true := by
      simp [tick, hr, hc, ge_iff_le, hc]
    have hstep : (tickStep s t now).1 = endSession (tick s t).1 := by
      unfold tickStep
      have hauto : (tick s t).1.autostart = false := by
        simp [tick, hr, ha]
      simp [hfire, timeupTrans, hauto]
    constructor
    · rw [hstep]
      simp [endSession]
    · rw [hstep]
      simp [tick, endSession]

/-- C1 witness: running state, tick that overshoots and fires. -/
theorem C1_tick_spec_witness :
    let s : TimerState :=
      { autostart := false, running := true, mode := Mode.WORK,
        elapsed := 1499000, startTime := some 0, inSession := true,
        workLen := 25, breakLen := 5, count := 1500000, duration := 25 }
    (tick s 2000).1 = { s with elapsed := min (1499000 + 2000) 1500000 }
    ∧ (tickStep s 2000 7).1.running = false := by
  intro s
  refine ⟨((C1_tick_spec s 2000 0 7 (by decide)).2.1 rfl).1, ?_⟩
  exact ((C1_tick_spec s 2000 0 7 (by decide)).2.2 rfl rfl (by decide)).1

/-- C2: `endSession` sets the mode to WORK when `breakLen = 0` and to the
opposite mode otherwise; consequently, starting from WORK with
`breakLen > 0`, `n` consecutive natural timeouts alternate
WORK, BREAK, WORK, ... (mode after `n` timeouts is WORK iff `n` is even),
and with `breakLen = 0` the mode is WORK after every timeout. -/
theorem C2_endSession_mode (s : TimerState) (nows : List Int) :
    ((endSession s).mode
      = if s.breakLen = 0 then Mode.WORK
        else if s.mode = Mode.WORK then Mode.BREAK else Mode.WORK)
  ∧ (s.mode = Mode.WORK → 0 < s.breakLen →
      (applyTimeouts s nows).mode
        = if nows.length % 2 = 0 then Mode.WORK else Mode.BREAK)
  ∧ (s.breakLen = 0 → nows ≠ [] →
      (applyTimeouts s nows).mode = Mode.WORK) := by
  refine ⟨rfl, ?_, fun h hne => applyTimeouts_mode_zero nows s h hne⟩
  intro hm hb
  rw [applyTimeouts_mode_flip nows s hb, hm]
  by_cases hp : nows.length % 2 = 0 <;> simp [hp, flipMode]

/-- C2 witness: three timeouts from WORK with breakLen 5 end in BREAK; one
timeout with breakLen 0 ends in WORK. -/
theorem C2_endSession_mode_witness :
    (applyTimeouts
      { autostart := false, running := true, mode := Mode.WORK,
        elapsed := 0, startTime := some 0, inSession := true,
        workLen := 25, breakLen := 5, count := 1500000, duration := 25 }
      [1, 2, 3]).mode = Mode.BREAK
    ∧ (applyTimeouts
      { autostart := false, running := true, mode := Mode.WORK,
        elapsed := 0, startTime := some 0, inSession := true,
        workLen := 25, breakLen := 0, count := 1500000, duration := 25 }
      [1]).mode = Mode.WORK := by
  constructor
  · have h := (C2_endSession_mode
      { autostart := false, running := true, mode := Mode.WORK,
        elapsed := 0, startTime := some 0, inSession := true,
        workLen := 25, breakLen := 5, count := 1500000, duration := 25 }
      [1, 2, 3]).2.1 rfl (by decide)
    simpa using h
  · exact (C2_endSession_mode
      { autostart := false, running := true, mode := Mode.WORK,
        elapsed := 0, startTime := some 0, inSession := true,
        workLen := 25, breakLen := 0, count := 1500000, duration := 25 }
      [1]).2.2 rfl (by simp)

/-- C3 counterexample: the three-conjunct invariant of the claim is NOT
preserved by `setupTimer` as stated.  The state below satisfies the
invariant (elapsed 1 ≤ count 1, not running, not in session, no start
time), yet `setupTimer` with a newly configured `workLen = 0` recomputes
`count = 0 < elapsed`, breaking `elapsed ≤ count`. -/
theorem C3_setupTimer_counterexample :
    Inv { autostart := false, running := false, mode := Mode.WORK,
          elapsed := 1, startTime := none, inSession := false,
          workLen := 1, breakLen := 1, count := 1, duration := 1 }
  ∧ ¬ Inv (setupTimer
      { autostart := false, running := false, mode := Mode.WORK,
        elapsed := 1, startTime := none, inSession := false,
        workLen := 1, breakLen := 1, count := 1, duration := 1 } 0 0 false) := by
  constructor
  · refine ⟨by decide, by decide, by decide, by decide⟩
  · intro h
    have h1 := h.2.1
    simp [setupTimer, toMillis] at h1

/-- C3 (amended): the invariant strengthened with "outside a session the
elapsed time is zero" holds in the initial state and is preserved by every
timer operation (start, pause, tick with non-negative delta, the full tick
step including timeup processing, timeup/endSession, reset, toggleMode and
setupTimer); the strengthened invariant implies the claimed one, so the
claimed invariant `0 ≤ elapsed ≤ count ∧ (running → inSession) ∧
(startTime ≠ null ↔ inSession)` holds in every reachable state. -/
theorem C3_invariant_inductive (s : TimerState) (t now : Int) (wl bl : Nat)
    (au : Bool) (h : InvS s) (ht : 0 ≤ t) :
    InvS (initialState wl bl au)
  ∧ Inv s
  ∧ InvS (start s now) ∧ InvS (pause s)
  ∧ InvS (tick s t).1 ∧ InvS (tickStep s t now).1
  ∧ InvS (timeupTrans s now) ∧ InvS (endSession s)
  ∧ InvS (reset s).1 ∧ InvS (toggleMode s)
  ∧ InvS (setupTimer s wl bl au) :=
  ⟨InvS_initial wl bl au, h.1, InvS_start s now h, InvS_pause s h,
   InvS_tick s t ht h, InvS_tickStep s t now ht h, InvS_timeupTrans s now,
   InvS_endSession s, InvS_reset s, InvS_toggleMode s,
   InvS_setupTimer s wl bl au h⟩

/-- C3 witness: instantiation at the initial state of a 25/5 timer. -/
theorem C3_invariant_inductive_witness :
    Inv (initialState 25 5 false)
    ∧ InvS (start (initialState 25 5 false) 42) := by
  have h := C3_invariant_inductive (initialState 25 5 false) 0 42 25 5 false
    (InvS_initial 25 5 false) (by decide)
  exact ⟨h.2.1, h.2.2.1⟩

/-- C5: `reset()` hands a log context to the logger iff the pre-reset
elapsed time is at least one minute (60000 ms); the context is a copy of
the pre-reset state (mode, elapsed, startTime as they were before the
mutation), and the post-reset state has `inSession = false`,
`running = false`, `startTime = null`, `elapsed = 0` and `count`
recomputed for the (unchanged) current mode. -/
theorem C5_reset_spec (s : TimerState) :
    (s.elapsed < 60000 → (reset s).2 = none)
  ∧ (60000 ≤ s.elapsed → (reset s).2 = some s)
  ∧ (∀ c, (reset s).2 = some c →
      c.mode = s.mode ∧ c.elapsed = s.elapsed ∧ c.startTime = s.startTime)
  ∧ ((reset s).1.inSession = false ∧ (reset s).1.running = false
      ∧ (reset s).1.startTime = none ∧ (reset s).1.elapsed = 0
      ∧ (reset s).1.count
          = toMillis (if s.mode = Mode.WORK then s.workLen else s.breakLen)
      ∧ (reset s).1.mode = s.mode) := by
  refine ⟨?_, ?_, ?_, ?_⟩
  · intro h
    simp [reset]
    omega
  · intro h
    simp [reset, h]
  · intro c hc
    by_cases h : s.elapsed ≥ 60000
    · simp [reset, h] at hc
      subst hc
      exact ⟨rfl, rfl, rfl⟩
    · simp [reset, h] at hc
  · by_cases h : s.mode = Mode.WORK <;> simp [reset, h]

/-- C5 witness: a WORK session reset at 60000 ms logs the pre-reset state;
at 59999 ms it logs nothing. -/
theorem C5_reset_spec_witness :
    (reset
      { autostart := false, running := true, mode := Mode.WORK,
        elapsed := 60000, startTime := some 5, inSession := true,
        workLen := 25, breakLen := 5, count := 1500000, duration := 25 }).2
      = some
      { autostart := false, running := true, mode := Mode.WORK,
        elapsed := 60000, startTime := some 5, inSession := true,
        workLen := 25, breakLen := 5, count := 1500000, duration := 25 }
    ∧ (reset
      { autostart := false, running := true, mode := Mode.WORK,
        elapsed := 59999, startTime := some 5, inSession := true,
        workLen := 25, breakLen := 5, count := 1500000, duration := 25 }).2
      = none := by
  constructor
  · exact (C5_reset_spec _).2.1 (by decide)
  · exact (C5_reset_spec _).1 (by decide)

/-- C9 counterexample: the claim asserts the human-readable remainder is
rendered in the exact format `MM:SS`, but the source template literal is
`` `${minStr} : ${secStr}` `` — spaces surround the colon.  With
`count = 1500000`, `elapsed = 0` the code yields `"25 : 00"`, not
`"25:00"`. -/
theorem C9_remain_format_counterexample :
    (remain 1500000 0).human = "25 : 00"
  ∧ (remain 1500000 0).human ≠ "25:00" := by
  constructor <;> decide

/-- C9 (amended): for every observation with `0 ≤ elapsed ≤ count`, the
derived remainder satisfies `millis = count - elapsed`, and the rendering
is zero-padded minutes and seconds of that remainder joined by `" : "`
(spaces around the colon, unlike the claimed bare `MM:SS`), with minutes
`⌊remainder / 60000⌋` and seconds `⌊(remainder mod 60000) / 1000⌋`, each
left-padded with '0' below 10. -/
theorem C9_remain_spec (count elapsed : Int) (h0 : 0 ≤ elapsed)
    (h1 : elapsed ≤ count) :
    (remain count elapsed).millis = count - elapsed
  ∧ (remain count elapsed).human
      = intPad ((count - elapsed) / 60000) ++ " : "
        ++ intPad (((count - elapsed) % 60000) / 1000) := by
  have hrem : (0:Int) ≤ count - elapsed := by omega
  refine ⟨rfl, ?_⟩
  unfold remain
  simp only []
  rw [Int.fdiv_eq_ediv _ (by norm_num)]
  rw [Int.tmod_eq_emod hrem (by norm_num)]
  rw [Int.fdiv_eq_ediv _ (by norm_num)]

/-- C9 witness: a concrete in-range observation. -/
theorem C9_remain_spec_witness :
    (remain 1500000 90000).millis = 1500000 - 90000
    ∧ (remain 1500000 90000).human = "23 : 30" := by
  have h := C9_remain_spec 1500000 90000 (by decide) (by decide)
  refine ⟨h.1, ?_⟩
  rw [h.2]
  decide

/-! ### Decimal rendering of JS numbers

`` `${n}` `` interpolation of an integral JS number renders its decimal
digits (with a leading '-' when negative).  `toDigits`/`intChars` model
this rendering, `digitsToNat` the numeric value of a digit run (as read by
`parseInt`). -/

def digitChar (n : Nat) : Char := Char.ofNat (48 + n)

def digitVal (c : Char) : Nat := c.toNat - 48

def toDigits (n : Nat) : List Char :=
  if h : n < 10 then [digitChar n]
  else toDigits (n / 10) ++ [digitChar (n % 10)]
termination_by n
decreasing_by exact Nat.div_lt_self (by omega) (by omega)

/-- Decimal rendering of an integral JS number (template-literal
interpolation). -/
def intChars (i : Int) : List Char :=
  if i < 0 then '-' :: toDigits i.natAbs else toDigits i.toNat

/-- Numeric value of a digit run, as `parseInt` reads it. -/
def digitsToNat (l : List Char) : Nat :=
  l.foldl (fun a c => a * 10 + digitVal c) 0

/-- The ten decimal digit characters. -/
def decChars : List Char := "0123456789".data

theorem digitChar_mem (d : Nat) (h : d < 10) : digitChar d ∈ decChars := by
  interval_cases d <;> decide

theorem digitChar_isDigit (d : Nat) (h : d < 10) :
    (digitChar d).isDigit = true := by
  interval_cases d <;> decide

theorem digitChar_toNat (d : Nat) (h : d < 10) :
    (digitChar d).toNat = 48 + d := by
  interval_cases d <;> decide

theorem digitVal_digitChar (d : Nat) (h : d < 10) :
    digitVal (digitChar d) = d := by
  unfold digitVal
  rw [digitChar_toNat d h]
  omega

theorem decChar_facts (c : Char) (h : c ∈ decChars) :
    c.isDigit = true ∧ c ≠ '(' ∧ c ≠ ')' ∧ c.isWhitespace = false
      ∧ c ≠ '/' ∧ c ≠ '^' := by
  simp only [decChars] at h
  fin_cases h <;> exact ⟨by decide, by decide, by decide, by decide,
    by decide, by decide⟩

theorem toDigits_mem (n : Nat) : ∀ c ∈ toDigits n, c ∈ decChars := by
  induction n using Nat.strong_induction_on with
  | _ n ih =>
    intro c hc
    rw [toDigits] at hc
    by_cases h : n < 10
    · simp [h] at hc
      subst hc
      exact digitChar_mem n h
    · simp [h] at hc
      rcases hc with hc | hc
      · exact ih (n / 10) (Nat.div_lt_self (by omega) (by omega)) c hc
      · subst hc
        exact digitChar_mem _ (Nat.mod_lt _ (by omega))

theorem digitsToNat_append_one (l : List Char) (c : Char) :
    digitsToNat (l ++ [c]) = digitsToNat l * 10 + digitVal c := by
  unfold digitsToNat
  rw [List.foldl_append]
  rfl

theorem digitsToNat_toDigits (n : Nat) : digitsToNat (toDigits n) = n := by
  induction n using Nat.strong_induction_on with
  | _ n ih =>
    rw [toDigits]
    by_cases h : n < 10
    · simp [h, digitsToNat, digitVal_digitChar n h]
    · simp only [h, dite_false]
      rw [digitsToNat_append_one,
        ih (n / 10) (Nat.div_lt_self (by omega) (by omega)),
        digitVal_digitChar _ (Nat.mod_lt _ (by omega))]
      omega

/-! ### Zero padding and calendar timestamps

`pad2`/`pad4` model the moment format tokens `mm`/`HH`/`MM`/`DD` and
`YYYY`; `DateTime` models a moment calendar value (local time), at the
precision the log formats use. -/

def pad2 (n : Nat) : List Char :=
  if n < 10 then '0' :: toDigits n else toDigits n

def pad4 (n : Nat) : List Char :=
  if n < 10 then '0' :: '0' :: '0' :: toDigits n
  else if n < 100 then '0' :: '0' :: toDigits n
  else if n < 1000 then '0' :: toDigits n
  else toDigits n

theorem toDigits_two (n : Nat) (h1 : 10 ≤ n) (h2 : n < 100) :
    toDigits n = [digitChar (n / 10), digitChar (n % 10)] := by
  rw [toDigits]
  have h : ¬ n < 10 := by omega
  simp only [h, dite_false]
  rw [toDigits]
  have h3 : n / 10 < 10 := by omega
  simp [h3]

theorem toDigits_three (n : Nat) (h1 : 100 ≤ n) (h2 : n < 1000) :
    toDigits n
      = [digitChar (n / 100), digitChar (n / 10 % 10), digitChar (n % 10)] := by
  rw [toDigits]
  have h : ¬ n < 10 := by omega
  simp only [h, dite_false]
  rw [toDigits_two (n / 10) (by omega) (by omega)]
  rw [Nat.div_div_eq_div_mul]
  rfl

theorem toDigits_four (n : Nat) (h1 : 1000 ≤ n) (h2 : n < 10000) :
    toDigits n
      = [digitChar (n / 1000), digitChar (n / 100 % 10),
         digitChar (n / 10 % 10), digitChar (n % 10)] := by
  rw [toDigits]
  have h : ¬ n < 10 := by omega
  simp only [h, dite_false]
  rw [toDigits_three (n / 10) (by omega) (by omega)]
  rw [Nat.div_div_eq_div_mul, Nat.div_div_eq_div_mul]
  rfl

theorem pad2_eq (n : Nat) (h : n < 100) :
    pad2 n = [digitChar (n / 10), digitChar (n % 10)] := by
  unfold pad2
  by_cases h1 : n < 10
  · have hd : n / 10 = 0 := by omega
    have hm : n % 10 = n := by omega
    rw [toDigits]
    simp [h1, hd, hm]
    rfl
  · simp only [h1, if_false]
    exact toDigits_two n (by omega) h

theorem pad4_eq (n : Nat) (h : n < 10000) :
    pad4 n = [digitChar (n / 1000), digitChar (n / 100 % 10),
              digitChar (n / 10 % 10), digitChar (n % 10)] := by
  unfold pad4
  by_cases h1 : n < 10
  · rw [toDigits]
    have hd3 : n / 1000 = 0 := by omega
    have hd2 : n / 100 % 10 = 0 := by omega
    have hd1 : n / 10 % 10 = 0 := by omega
    have hm : n % 10 = n := by omega
    have h0 : digitChar 0 = '0' := by decide
    simp only [h1, if_true, dite_true, hd3, hd2, hd1, hm, h0]
  · by_cases h2 : n < 100
    · have hd3 : n / 1000 = 0 := by omega
      have hd2 : n / 100 % 10 = 0 := by omega
      have hd1 : n / 10 % 10 = n / 10 := by omega
      simp only [h1, h2, if_false, if_true]
      rw [toDigits_two n (by omega) h2, hd3, hd2, hd1]
      exact rfl
    · by_cases h3 : n < 1000
      · have hd3 : n / 1000 = 0 := by omega
        have hd2 : n / 100 % 10 = n / 100 := by omega
        simp only [h1, h2, h3, if_false, if_true]
        rw [toDigits_three n (by omega) h3, hd3, hd2]
        exact rfl
      · simp only [h1, h2, h3, if_false]
        exact toDigits_four n (by omega) h

theorem pad2_mem (n : Nat) : ∀ c ∈ pad2 n, c ∈ decChars := by
  intro c hc
  unfold pad2 at hc
  split at hc
  · rcases List.mem_cons.mp hc with rfl | hc
    · decide
    · exact toDigits_mem n c hc
  · exact toDigits_mem n c hc

theorem pad4_mem (n : Nat) : ∀ c ∈ pad4 n, c ∈ decChars := by
  intro c hc
  have hz : ('0' : Char) ∈ decChars := by decide
  unfold pad4 at hc
  split at hc
  · rcases List.mem_cons.mp hc with rfl | hc
    · exact hz
    rcases List.mem_cons.mp hc with rfl | hc
    · exact hz
    rcases List.mem_cons.mp hc with rfl | hc
    · exact hz
    exact toDigits_mem n c hc
  · split at hc
    · rcases List.mem_cons.mp hc with rfl | hc
      · exact hz
      rcases List.mem_cons.mp hc with rfl | hc
      · exact hz
      exact toDigits_mem n c hc
    · split at hc
      · rcases List.mem_cons.mp hc with rfl | hc
        · exact hz
        exact toDigits_mem n c hc
      · exact toDigits_mem n c hc

/-- A moment calendar value (local time), to the precision used by the
log formats: the formatter truncates to minutes, so `second` carries what
the `YYYY-MM-DD HH:mm` rendering drops. -/
structure DateTime where
  year : Nat
  month : Nat
  day : Nat
  hour : Nat
  minute : Nat
  second : Nat
deriving DecidableEq, Repr

/-- Field widths under which the fixed-width `YYYY-MM-DD HH:mm` rendering
is faithful. -/
def ValidYMDHM (dt : DateTime) : Prop :=
  dt.year < 10000 ∧ dt.month < 100 ∧ dt.day < 100 ∧ dt.hour < 100
    ∧ dt.minute < 100

instance (dt : DateTime) : Decidable (ValidYMDHM dt) := by
  unfold ValidYMDHM
  infer_instance

/-- moment `format('YYYY-MM-DD HH:mm')`. -/
def fmtYMDHMChars (dt : DateTime) : List Char :=
  pad4 dt.year ++ ['-'] ++ pad2 dt.month ++ ['-'] ++ pad2 dt.day
    ++ [' '] ++ pad2 dt.hour ++ [':'] ++ pad2 dt.minute

def fmtYMDHM (dt : DateTime) : String := ⟨fmtYMDHMChars dt⟩

/-- moment `format('HH:mm')`. -/
def fmtHM (dt : DateTime) : String := ⟨pad2 dt.hour ++ [':'] ++ pad2 dt.minute⟩

/-- Truncation to minute precision: what a `YYYY-MM-DD HH:mm` string
retains of a timestamp. -/
def truncMinute (dt : DateTime) : DateTime := { dt with second := 0 }

/-- moment parsing with the `'YYYY-MM-DD HH:mm'` format: sixteen
characters, four digit groups separated by '-', '-', ' ' and ':'. -/
def parseYMDHMChars : List Char → Option DateTime
  | [a1, a2, a3, a4, s1, b1, b2, s2, c1, c2, s3, e1, e2, s4, f1, f2] =>
    if a1.isDigit && a2.isDigit && a3.isDigit && a4.isDigit
        && b1.isDigit && b2.isDigit && c1.isDigit && c2.isDigit
        && e1.isDigit && e2.isDigit && f1.isDigit && f2.isDigit
        && (s1 == '-') && (s2 == '-') && (s3 == ' ') && (s4 == ':') then
      some { year := digitVal a1 * 1000 + digitVal a2 * 100
                      + digitVal a3 * 10 + digitVal a4
             month := digitVal b1 * 10 + digitVal b2
             day := digitVal c1 * 10 + digitVal c2
             hour := digitVal e1 * 10 + digitVal e2
             minute := digitVal f1 * 10 + digitVal f2
             second := 0 }
    else none
  | _ => none

theorem parse_fmt_roundtrip (dt : DateTime) (h : ValidYMDHM dt) :
    parseYMDHMChars (fmtYMDHMChars dt) = some (truncMinute dt) := by
  obtain ⟨hy, hm, hd, hh, hn⟩ := h
  rw [fmtYMDHMChars, pad4_eq dt.year hy, pad2_eq dt.month hm,
    pad2_eq dt.day hd, pad2_eq dt.hour hh, pad2_eq dt.minute hn]
  simp only [List.cons_append, List.nil_append]
  rw [parseYMDHMChars]
  rw [digitChar_isDigit _ (by omega), digitChar_isDigit _ (by omega),
    digitChar_isDigit _ (by omega), digitChar_isDigit _ (by omega),
    digitChar_isDigit _ (by omega), digitChar_isDigit _ (by omega),
    digitChar_isDigit _ (by omega), digitChar_isDigit _ (by omega),
    digitChar_isDigit _ (by omega), digitChar_isDigit _ (by omega),
    digitChar_isDigit _ (by omega), digitChar_isDigit _ (by omega)]
  simp only [Bool.true_and, beq_self_eq_true, if_true]
  rw [digitVal_digitChar _ (by omega), digitVal_digitChar _ (by omega),
    digitVal_digitChar _ (by omega), digitVal_digitChar _ (by omega),
    digitVal_digitChar _ (by omega), digitVal_digitChar _ (by omega),
    digitVal_digitChar _ (by omega), digitVal_digitChar _ (by omega),
    digitVal_digitChar _ (by omega), digitVal_digitChar _ (by omega),
    digitVal_digitChar _ (by omega), digitVal_digitChar _ (by omega)]
  unfold truncMinute
  congr 1
  congr 1 <;> omega

/-! ### Substring decompositions (regex-matching primitive)

`findSplits pat l` lists every decomposition `l = pre ++ pat ++ post` as
`(pre, post)`, ordered by increasing `pre`.  A JS regex quantifier
backtracks through exactly these decompositions: a lazy `.*?` before a
literal takes them in this order, a greedy `.*` in reverse order, and the
engine keeps the first decomposition for which the rest of the pattern
matches (`firstSome`). -/

def findSplits (pat : List Char) : List Char → List (List Char × List Char)
  | [] => if pat.isEmpty then [([], [])] else []
  | c :: rest =>
    let tailS := (findSplits pat rest).map (fun p => (c :: p.1, p.2))
    if pat.isPrefixOf (c :: rest) then
      ([], (c :: rest).drop pat.length) :: tailS
    else tailS

def firstSome {α β : Type} (l : List α) (f : α → Option β) : Option β :=
  match l with
  | [] => none
  | a :: as =>
    match f a with
    | some b => some b
    | none => firstSome as f

theorem firstSome_cons_some {α β : Type} (a : α) (l : List α)
    (f : α → Option β) (b : β) (h : f a = some b) :
    firstSome (a :: l) f = some b := by
  simp [firstSome, h]

theorem firstSome_single {α β : Type} (a : α) (f : α → Option β) :
    firstSome [a] f = f a := by
  cases h : f a <;> simp [firstSome, h]

theorem findSplits_nil (pat : List Char) (h : pat ≠ []) :
    findSplits pat [] = [] := by
  simp [findSplits, List.isEmpty_iff, h]

theorem findSplits_cons_no (pat : List Char) (c : Char) (rest : List Char)
    (h : pat.isPrefixOf (c :: rest) = false) :
    findSplits pat (c :: rest)
      = (findSplits pat rest).map (fun p => (c :: p.1, p.2)) := by
  simp [findSplits, h]

theorem findSplits_cons_yes (pat : List Char) (c : Char) (rest : List Char)
    (h : pat.isPrefixOf (c :: rest) = true) :
    findSplits pat (c :: rest)
      = ([], (c :: rest).drop pat.length)
          :: (findSplits pat rest).map (fun p => (c :: p.1, p.2)) := by
  simp [findSplits, h]

theorem isPrefixOf_cons_false (p0 c : Char) (pr l : List Char)
    (h : p0 ≠ c) : (p0 :: pr).isPrefixOf (c :: l) = false := by
  simp [List.isPrefixOf, h]

theorem isPrefixOf_cons2_false (p0 p1 c0 c1 : Char) (pr l : List Char)
    (h : p0 ≠ c0 ∨ p1 ≠ c1) :
    (p0 :: p1 :: pr).isPrefixOf (c0 :: c1 :: l) = false := by
  rcases h with h | h <;> simp [List.isPrefixOf, h]

theorem findSplits_skip (p0 : Char) (pr a b : List Char) (h : p0 ∉ a) :
    findSplits (p0 :: pr) (a ++ b)
      = (findSplits (p0 :: pr) b).map (fun p => (a ++ p.1, p.2)) := by
  induction a with
  | nil => simp
  | cons c a2 ih =>
    have hc : p0 ≠ c := fun he => h (he ▸ List.mem_cons_self c a2)
    have h2 : p0 ∉ a2 := fun he => h (List.mem_cons_of_mem c he)
    rw [List.cons_append,
      findSplits_cons_no _ _ _ (isPrefixOf_cons_false p0 c pr _ hc),
      ih h2, List.map_map]
    rfl

theorem findSplits_here (p0 : Char) (pr b : List Char) :
    findSplits (p0 :: pr) ((p0 :: pr) ++ b)
      = ([], b)
          :: (findSplits (p0 :: pr) (pr ++ b)).map (fun p => (p0 :: p.1, p.2)) := by
  have hpre : (p0 :: pr).isPrefixOf (p0 :: (pr ++ b)) = true := by
    rw [List.isPrefixOf_iff_prefix]
    exact List.prefix_append (p0 :: pr) b
  have hdrop : (p0 :: (pr ++ b)).drop (p0 :: pr).length = b := by
    have := List.drop_left (p0 :: pr) b
    simpa using this
  rw [List.cons_append, findSplits_cons_yes _ _ _ hpre, hdrop]

/-- `pat` has no occurrence inside `l`. -/
def NotOccurs (pat l : List Char) : Prop := findSplits pat l = []

theorem NotOccurs_nil (pat : List Char) (h : pat ≠ []) : NotOccurs pat [] :=
  findSplits_nil pat h

theorem NotOccurs_skip (p0 : Char) (pr a b : List Char) (ha : p0 ∉ a)
    (hb : NotOccurs (p0 :: pr) b) : NotOccurs (p0 :: pr) (a ++ b) := by
  unfold NotOccurs at hb ⊢
  rw [findSplits_skip p0 pr a b ha, hb]
  rfl

theorem NotOccurs_cons_no (pat : List Char) (c : Char) (rest : List Char)
    (h : pat.isPrefixOf (c :: rest) = false) (hr : NotOccurs pat rest) :
    NotOccurs pat (c :: rest) := by
  unfold NotOccurs at hr ⊢
  rw [findSplits_cons_no pat c rest h, hr]
  rfl

theorem findSplits_single (p0 : Char) (pr a b : List Char) (ha : p0 ∉ a)
    (hb : NotOccurs (p0 :: pr) (pr ++ b)) :
    findSplits (p0 :: pr) (a ++ ((p0 :: pr) ++ b)) = [(a, b)] := by
  rw [findSplits_skip p0 pr a _ ha, findSplits_here p0 pr b, hb]
  simp

theorem findSplits_firstAt (p0 : Char) (pr a b : List Char) (ha : p0 ∉ a) :
    findSplits (p0 :: pr) (a ++ ((p0 :: pr) ++ b))
      = (a, b) :: (findSplits (p0 :: pr) (pr ++ b)).map
          (fun p => (a ++ p0 :: p.1, p.2)) := by
  rw [findSplits_skip p0 pr a _ ha, findSplits_here p0 pr b]
  simp [List.map_map]

/-! ### JS string helpers: `trim`, `split('\n')`, `join('\n')` -/

/-- JS `String.prototype.trim`: strip whitespace from both ends. -/
def jsTrimChars (l : List Char) : List Char :=
  ((l.dropWhile Char.isWhitespace).reverse.dropWhile Char.isWhitespace).reverse

def jsTrim (s : String) : String := ⟨jsTrimChars s.data⟩

theorem jsTrimChars_cons_ws (c : Char) (l : List Char)
    (h : c.isWhitespace = true) : jsTrimChars (c :: l) = jsTrimChars l := by
  unfold jsTrimChars
  rw [List.dropWhile_cons, if_pos (by simp [h])]

theorem jsTrimChars_id (l : List Char) (h1 : l ≠ [])
    (hh : ∀ c, l.head? = some c → c.isWhitespace = false)
    (hl : ∀ c, l.getLast? = some c → c.isWhitespace = false) :
    jsTrimChars l = l := by
  cases l with
  | nil => exact absurd rfl h1
  | cons c xs =>
    unfold jsTrimChars
    rw [List.dropWhile_cons, if_neg (by simp [hh c rfl])]
    rcases hrev : (c :: xs).reverse with _ | ⟨d, r2⟩
    · have hlen : xs.length + 1 = 0 := by simpa using congrArg List.length hrev
      exact absurd hlen (by omega)
    · have hlast : (c :: xs).getLast? = some d := by
        rw [← List.head?_reverse, hrev]
        rfl
      rw [List.dropWhile_cons, if_neg (by simp [hl d hlast])]
      rw [← hrev, List.reverse_reverse]

/-- JS `content.split('\n')`. -/
def splitOnChar (c : Char) : List Char → List (List Char)
  | [] => [[]]
  | x :: xs =>
    let r := splitOnChar c xs
    if x = c then [] :: r
    else
      match r with
      | [] => [[x]]
      | h :: t => (x :: h) :: t

/-- JS `lines.join('\n')`. -/
def joinChar (c : Char) : List (List Char) → List Char
  | [] => []
  | l :: rest => if rest.isEmpty then l else l ++ c :: joinChar c rest

theorem splitOnChar_ne_nil (c : Char) (l : List Char) :
    splitOnChar c l ≠ [] := by
  induction l with
  | nil => simp [splitOnChar]
  | cons x xs ih =>
    unfold splitOnChar
    by_cases h : x = c
    · simp [h]
    · simp only [h, if_false]
      rcases hr : splitOnChar c xs with _ | ⟨h2, t⟩

      · simp
      · simp

theorem joinChar_splitOnChar (c : Char) (l : List Char) :
    joinChar c (splitOnChar c l) = l := by
  induction l with
  | nil => simp [splitOnChar, joinChar]
  | cons x xs ih =>
    unfold splitOnChar
    by_cases h : x = c
    · simp only [h, if_true]
      rcases hr : splitOnChar c xs with _ | ⟨h2, t⟩
      · exact absurd hr (splitOnChar_ne_nil c xs)
      · rw [← hr]
        unfold joinChar
        rw [if_neg (by simp [hr])]
        rw [ih]
        rfl
    · simp only [h, if_false]
      rcases hr : splitOnChar c xs with _ | ⟨h2, t⟩
      · exact absurd hr (splitOnChar_ne_nil c xs)
      · rw [hr] at ih
        cases t with
        | nil =>
          unfold joinChar at ih ⊢
          simp at ih ⊢
          rw [ih]
        | cons t1 t2 =>
          unfold joinChar at ih ⊢
          simp at ih ⊢
          exact ih

/-! ### Task items and the session logger

`TaskItem` is from `Tasks.ts`; the logger (`Logger.toText`,
`Logger.createLog`) is from the Logger source in `part_002`.  `part_002`
carries two revisions of `Logger.toText`; the one modelled here is the
revision whose incomplete-session check reads
`if (!log.finished && log.mode === 'BREAK') return ''` and whose comment
documents that asymmetry as intended ("Solo se omite el log si es un
DESCANSO no terminado.  Las sesiones de TRABAJO siempre se registran.");
the other revision skips every unfinished session.  Both revisions agree
on everything else modelled below (taskID, emoji, line layout). -/

/-- `Tasks.ts` `TaskItem`.  JS numbers that may be `NaN` (`parseInt` of a
non-numeric annotation) are modelled as `Option Int`, `none` standing for
`NaN`. -/
structure TaskItem where
  path : String
  text : String
  fileName : String
  name : String
  status : String
  blockLink : String
  checked : Bool
  done : String
  due : String
  created : String
  cancelled : String
  scheduled : String
  start : String
  description : String
  priority : String
  recurrence : String
  expected : Option Int
  actual : Option Int
  tags : List String
  line : Int
deriving DecidableEq, Repr

/-- `src/Timer.ts` `DEFAULT_TASK`: the neutral placeholder used when no
task is active. -/
def DEFAULT_TASK : TaskItem :=
  { path := "", text := "", fileName := "", name := "", status := ""
    blockLink := "", checked := false, done := "", due := "", created := ""
    cancelled := "", scheduled := "", start := "", description := ""
    priority := "", recurrence := "", expected := some 0, actual := some 0
    tags := [], line := -1 }

/-- `Settings.logFormat` values. -/
inductive LogFormat where
  | SIMPLE : LogFormat
  | VERBOSE : LogFormat
  | CUSTOM : LogFormat
deriving DecidableEq, Repr

/-- `Logger.TimerLog`.  `begin`/`endTime` hold the moment calendar values
of the session's start wall-clock time and of `Date.now()` at logging
time (the epoch-milliseconds→calendar conversion is the external moment
collaborator); `endTime` models the source's `end` field (a Lean
keyword). -/
structure TimerLog where
  duration : Int
  begin : DateTime
  endTime : DateTime
  mode : Mode
  session : Nat
  task : TaskItem
  finished : Bool
deriving DecidableEq, Repr

/-- `Logger.createLog(ctx)`: `duration = Math.floor(ctx.elapsed / 60000)`
(whole minutes, rounding down — `Int.fdiv` is JS `Math.floor` of the
float quotient), `begin = ctx.startTime!`, `end = Date.now()` (their
calendar values enter as parameters, see `TimerLog`),
`finished = (ctx.count == ctx.elapsed)`. -/
def createLog (ctx : TimerState) (task : TaskItem) (beginT endT : DateTime) :
    TimerLog :=
  { mode := ctx.mode
    duration := Int.fdiv ctx.elapsed 60000
    begin := beginT
    endTime := endT
    session := ctx.duration
    task := task
    finished := decide (ctx.count = ctx.elapsed) }

def removeFirstCaretChars : List Char → List Char
  | [] => []
  | c :: cs => if c = '^' then cs else c :: removeFirstCaretChars cs

/-- JS `blockLink.replace('^', '')`: `replace` with a string pattern
removes only the first occurrence of `'^'`, wherever it is. -/
def removeFirstCaret (s : String) : String := ⟨removeFirstCaretChars s.data⟩

/-- The taskID of the VERBOSE format:
`log.task.blockLink ? log.task.blockLink.replace('^', '') : 'N/A'`
(the empty string is falsy in JS). -/
def taskIdOf (blockLink : String) : String :=
  if blockLink ≠ "" then removeFirstCaret blockLink else "N/A"

/-- The taskID computation as claim C10 words it: "the leading '^'
character is removed" when the blockLink is non-empty, `N/A` when empty.
Stated verbatim for comparison with the code's `taskIdOf`. -/
def taskIdClaimed (blockLink : String) : String :=
  if blockLink = "" then "N/A"
  else
    match blockLink.data with
    | '^' :: rest => ⟨rest⟩
    | _ => blockLink

def modeStr : Mode → String
  | Mode.WORK => "WORK"
  | Mode.BREAK => "BREAK"

def emojiOf : Mode → String
  | Mode.WORK => "🍅"
  | Mode.BREAK => "🥤"

def intStr (i : Int) : String := ⟨intChars i⟩

/-- `Logger.toText` (built-in formats).  The CUSTOM branch delegates to
the external templater collaborator (and yields `''` when none is
installed or the template throws), so it is modelled as `""`; SIMPLE and
VERBOSE reproduce the source template literals byte for byte.  An
unfinished BREAK session formats to the empty string (and an empty string
is never written); an unfinished WORK session still formats. -/
def toText (fmt : LogFormat) (log : TimerLog) : String :=
  match fmt with
  | LogFormat.CUSTOM => ""
  | LogFormat.SIMPLE =>
    if log.finished = false ∧ log.mode = Mode.BREAK then ""
    else
      "**" ++ modeStr log.mode ++ "(" ++ intStr log.duration ++ "m)**: "
        ++ fmtHM log.begin ++ " - " ++ fmtHM log.endTime
  | LogFormat.VERBOSE =>
    if log.finished = false ∧ log.mode = Mode.BREAK then ""
    else
      "- " ++ emojiOf log.mode ++ " (pomodoro::" ++ modeStr log.mode
        ++ ") (taskID:: " ++ taskIdOf log.task.blockLink
        ++ ") (duration:: " ++ intStr log.duration
        ++ "m) (begin:: " ++ fmtYMDHM log.begin
        ++ ") - (end:: " ++ fmtYMDHM log.endTime ++ ")"

/-- C4: with a built-in format (SIMPLE or VERBOSE), an unfinished BREAK
session formats to the empty string — so nothing is written — while an
unfinished WORK session still produces a non-empty log line.  The
asymmetry is by mode only. -/
theorem C4_incomplete_formatting (fmt : LogFormat) (log : TimerLog)
    (hfmt : fmt = LogFormat.SIMPLE ∨ fmt = LogFormat.VERBOSE)
    (hfin : log.finished = false) :
    (log.mode = Mode.BREAK → toText fmt log = "")
  ∧ (log.mode = Mode.WORK → toText fmt log ≠ "") := by
  constructor
  · intro hm
    rcases hfmt with rfl | rfl <;> simp [toText, hfin, hm]
  · intro hm
    have hcond : ¬ (log.finished = false ∧ log.mode = Mode.BREAK) := by
      simp [hm]
    have h0 : ("" : String).length = 0 := rfl
    rcases hfmt with rfl | rfl
    · simp only [toText, hcond, if_false]
      intro he
      have hlen := congrArg String.length he
      simp only [String.length_append] at hlen
      have h2 : ("**" : String).length = 2 := by decide
      omega
    · simp only [toText, hcond, if_false]
      intro he
      have hlen := congrArg String.length he
      simp only [String.length_append] at hlen
      have h2 : ("- " : String).length = 2 := by decide
      omega

/-- C4 witness: an unfinished WORK session still formats (VERBOSE), an
unfinished BREAK session does not. -/
theorem C4_incomplete_formatting_witness :
    (toText LogFormat.VERBOSE
      { duration := 3, begin := ⟨2024, 1, 1, 10, 0, 0⟩,
        endTime := ⟨2024, 1, 1, 10, 3, 30⟩, mode := Mode.WORK,
        session := 25, task := DEFAULT_TASK, finished := false } ≠ "")
    ∧ (toText LogFormat.VERBOSE
      { duration := 3, begin := ⟨2024, 1, 1, 10, 0, 0⟩,
        endTime := ⟨2024, 1, 1, 10, 3, 30⟩, mode := Mode.BREAK,
        session := 5, task := DEFAULT_TASK, finished := false } = "") := by
  constructor
  · exact (C4_incomplete_formatting LogFormat.VERBOSE _ (Or.inr rfl) rfl).2 rfl
  · exact (C4_incomplete_formatting LogFormat.VERBOSE _ (Or.inr rfl) rfl).1 rfl

/-- C10 counterexample: the claim says the LEADING '^' is removed from a
non-empty blockLink, but JS `replace('^', '')` removes the FIRST '^'
occurrence wherever it sits.  On blockLink `"ab^"` (no leading caret) the
code produces `"ab"`, while the claimed computation leaves `"ab^"`. -/
theorem C10_taskId_counterexample :
    taskIdOf "ab^" = "ab" ∧ taskIdClaimed "ab^" = "ab^"
      ∧ taskIdOf "ab^" ≠ taskIdClaimed "ab^" := by
  refine ⟨by decide, by decide, by decide⟩

/-- C10 (amended): the VERBOSE taskID is computed totally from the task
snapshot's blockLink — `N/A` when it is empty, otherwise the blockLink
with its FIRST '^' occurrence removed (in particular a leading caret is
stripped) — and a finished session with no anchored task (empty
blockLink) still renders a non-empty VERBOSE line. -/
theorem C10_taskId_amended (bl grest : String) (log : TimerLog) :
    (bl = "" → taskIdOf bl = "N/A")
  ∧ (bl ≠ "" → taskIdOf bl = removeFirstCaret bl)
  ∧ (bl = "^" ++ grest → taskIdOf bl = grest)
  ∧ (log.finished = true → log.task.blockLink = "" →
      toText LogFormat.VERBOSE log ≠ "") := by
  refine ⟨?_, ?_, ?_, ?_⟩
  · intro h
    simp [taskIdOf, h]
  · intro h
    simp [taskIdOf, h]
  · intro h
    subst h
    have hne : ("^" ++ grest : String) ≠ "" := by
      intro he
      have := congrArg String.length he
      simp [String.length_append] at this
      have h1 : ("^" : String).length = 1 := by decide
      omega
    simp only [taskIdOf, hne, if_true, ne_eq, not_false_iff]
    show removeFirstCaret ("^" ++ grest) = grest
    unfold removeFirstCaret
    rw [String.data_append]
    show String.mk (removeFirstCaretChars ('^' :: grest.data)) = grest
    rw [removeFirstCaretChars]
    simp
  · intro hfin hbl
    have hcond : ¬ (log.finished = false ∧ log.mode = Mode.BREAK) := by
      simp [hfin]
    have h0 : ("" : String).length = 0 := rfl
    simp only [toText, hcond, if_false]
    intro he
    have hlen := congrArg String.length he
    simp only [String.length_append] at hlen
    have h2 : ("- " : String).length = 2 := by decide
    omega

/-! ### The log corrector (`main.ts`, `correctLogFileTimes`)

The corrector maps each line of the log document through the regex
`/(- 🍅 \(pomodoro::WORK\).*)\(duration::(.*?)\).*\(begin:: (.*?)\) - \(end:: (.*?)\)/`,
compares the logged duration with the real begin/end distance, and
rewrites the end time when the heuristic fires.  moment's timeline
(`diff`, `add`) is modelled with the standard civil-calendar conversion
(Hinnant's formulas); parsing with the explicit `YYYY-MM-DD HH:mm` format
is `parseYMDHMChars`, an invalid timestamp making every `NaN` comparison
false. -/

/-- `main.ts` `parseDuration` helper: digit run before `h` in `(\d+)\s*h`
(hours) and before `m` in `(\d+)\s*m` (minutes); a JS regex `match` scans
left to right, the digit run is maximal, `\s*` skips whitespace. -/
def findNumBefore (c : Char) : List Char → Option Nat
  | [] => none
  | x :: xs =>
    if x.isDigit then
      let rest := xs.dropWhile Char.isDigit
      match rest.dropWhile Char.isWhitespace with
      | y :: _ =>
        if y = c then some (digitsToNat (x :: xs.takeWhile Char.isDigit))
        else findNumBefore c rest
      | [] => findNumBefore c rest
    else findNumBefore c xs
termination_by l => l.length
decreasing_by
  all_goals simp_wf
  all_goals
    apply Nat.lt_succ_of_le
    exact List.Sublist.length_le (List.dropWhile_sublist _)

/-- `parseDuration(durationStr)`: hours·60 + minutes, each component 0
when its regex finds no match. -/
def parseDuration (s : String) : Nat :=
  (match findNumBefore 'h' s.data with
   | some hrs => hrs * 60
   | none => 0)
  + (match findNumBefore 'm' s.data with
     | some mins => mins
     | none => 0)

/-- Days since 1970-01-01 of a civil date (Hinnant's days-from-civil):
the model of the moment timeline.  `Int` `/` is Euclidean division,
which agrees with floor for the non-negative operands arising from
four-digit years. -/
def daysFromCivil (y m d : Int) : Int :=
  let y2 := if m ≤ 2 then y - 1 else y
  let era := (if 0 ≤ y2 then y2 else y2 - 399) / 400
  let yoe := y2 - era * 400
  let mp := if 2 < m then m - 3 else m + 9
  let doy := (153 * mp + 2) / 5 + d - 1
  let doe := yoe * 365 + yoe / 4 - yoe / 100 + doy
  era * 146097 + doe - 719468

/-- Civil date of a day number (Hinnant's civil-from-days). -/
def civilFromDays (z0 : Int) : Int × Int × Int :=
  let z := z0 + 719468
  let era := (if 0 ≤ z then z else z - 146096) / 146097
  let doe := z - era * 146097
  let yoe := (doe - doe / 1460 + doe / 36524 - doe / 146096) / 365
  let y := yoe + era * 400
  let doy := doe - (365 * yoe + yoe / 4 - yoe / 100)
  let mp := (5 * doy + 2) / 153
  let d := doy - (153 * mp + 2) / 5 + 1
  let m := if mp < 10 then mp + 3 else mp - 9
  (if m ≤ 2 then y + 1 else y, m, d)

def toTimelineMinutes (dt : DateTime) : Int :=
  (daysFromCivil dt.year dt.month dt.day * 24 + dt.hour) * 60 + dt.minute

def ofTimelineMinutes (t : Int) : DateTime :=
  let days := t / 1440
  let rem := t % 1440
  let ymd := civilFromDays days
  { year := ymd.1.toNat, month := ymd.2.1.toNat, day := ymd.2.2.toNat
    hour := (rem / 60).toNat, minute := (rem % 60).toNat, second := 0 }

/-- moment `.clone().add(n, 'minutes')`. -/
def addMinutes (dt : DateTime) (n : Nat) : DateTime :=
  ofTimelineMinutes (toTimelineMinutes dt + n)

/-- moment `duration(end.diff(begin)).asMinutes()` — integral here, since
both timestamps carry minute precision. -/
def diffMinutes (a b : DateTime) : Int :=
  toTimelineMinutes a - toTimelineMinutes b

def workLineLit : List Char := "- 🍅 (pomodoro::WORK)".data

def durLit : List Char := "(duration::".data

def beginLit : List Char := "(begin:: ".data

def endLit : List Char := ") - (end:: ".data

/-- The corrector's line regex
`/(- 🍅 \(pomodoro::WORK\).*)\(duration::(.*?)\).*\(begin:: (.*?)\) - \(end:: (.*?)\)/`
as a backtracking matcher over `findSplits` decompositions: the overall
match is leftmost, a greedy `.*` runs through the decompositions longest
first, a lazy `.*?` shortest first, and each candidate survives only if
the rest of the pattern matches.  Returns the four capture groups (group
1 is the literal head plus the first `.*`).  Lines here never contain
`'\n'` (the corrector splits on newlines first). -/
def matchCorrector (line : List Char) :
    Option (List Char × List Char × List Char × List Char) :=
  firstSome (findSplits workLineLit line) (fun s1 =>
    firstSome (findSplits durLit s1.2).reverse (fun s2 =>
      firstSome (findSplits [')'] s2.2) (fun s3 =>
        firstSome (findSplits beginLit s3.2).reverse (fun s4 =>
          firstSome (findSplits endLit s4.2) (fun s5 =>
            match findSplits [')'] s5.2 with
            | [] => none
            | s6 :: _ =>
              some (workLineLit ++ s2.1, s3.1, s5.1, s6.1))))))

/-- One line of `correctLogFileTimes` (the `lines.map(...)` body): when
the regex matches and the real elapsed minutes are < 3 while the logged
duration is > 20, the line is rebuilt from group 1 with the end time
replaced by `begin + loggedDuration minutes` (the source template drops
any text before the match start and after the matched end group, and
re-serializes the trimmed duration/begin fields).  A timestamp moment
cannot parse makes `realDuration < 3` a NaN comparison, hence false.  The
Bool records whether `correctedLines` was incremented. -/
def correctLine (line : List Char) : List Char × Bool :=
  match matchCorrector line with
  | none => (line, false)
  | some (g1, g2, g3, g4) =>
    let durationStr := jsTrimChars g2
    let beginStr := jsTrimChars g3
    let endStr := jsTrimChars g4
    let loggedDuration := parseDuration ⟨durationStr⟩
    match parseYMDHMChars beginStr, parseYMDHMChars endStr with
    | some beginT, some endT =>
      if diffMinutes endT beginT < 3 ∧ 20 < loggedDuration then
        (g1 ++ "(duration:: ".data ++ durationStr ++ ") (begin:: ".data
          ++ beginStr ++ ") - (end:: ".data
          ++ fmtYMDHMChars (addMinutes beginT loggedDuration) ++ [')'], true)
      else (line, false)
    | _, _ => (line, false)

/-- `correctLogFileTimes` over a whole document: split on newlines, map
each line independently, join back; count the corrected lines. -/
def correctLogContent (content : List Char) : List Char × Nat :=
  let results := (splitOnChar '\n' content).map correctLine
  (joinChar '\n' (results.map Prod.fst), results.countP (fun r => r.2))

/-- The document is written back iff `correctedLines > 0`. -/
def correctorWritesBack (content : List Char) : Bool :=
  decide (0 < (correctLogContent content).2)

theorem correctLine_id_of_not_corrected (l : List Char)
    (h : (correctLine l).2 = false) : (correctLine l).1 = l := by
  unfold correctLine at h ⊢
  rcases hm : matchCorrector l with _ | ⟨g1, g2, g3, g4⟩
  · simp [hm]
  · simp only [hm] at h ⊢
    rcases hb : parseYMDHMChars (jsTrimChars g3) with _ | bT <;>
      rcases he2 : parseYMDHMChars (jsTrimChars g4) with _ | eT <;>
      simp only [hb, he2] at h ⊢
    by_cases hc : diffMinutes eT bT < 3 ∧ 20 < parseDuration ⟨jsTrimChars g2⟩
    · simp [hc] at h
    · simp [hc]

/-- C6: the corrector maps each line of the document independently; a
line the regex does not match passes through unchanged, as does a
matching line whose timestamps fail to parse or whose heuristic
(real < 3 minutes AND logged > 20 minutes) is not met; a matching line
meeting the heuristic is rebuilt with its duration and begin fields
re-serialized from the extracted (trimmed) text and its end time replaced
by `begin + loggedDuration minutes`; the document is written back iff at
least one line was corrected, and when none was the output document is
byte-identical to the input. -/
theorem C6_corrector_spec (content line g1 g2 g3 g4 : List Char)
    (bT eT : DateTime) :
    ((correctLogContent content).1
      = joinChar '\n'
          ((splitOnChar '\n' content).map (fun l => (correctLine l).1)))
  ∧ (matchCorrector line = none → correctLine line = (line, false))
  ∧ (matchCorrector line = some (g1, g2, g3, g4) →
      (parseYMDHMChars (jsTrimChars g3) = none
        ∨ parseYMDHMChars (jsTrimChars g4) = none) →
      correctLine line = (line, false))
  ∧ (matchCorrector line = some (g1, g2, g3, g4) →
      parseYMDHMChars (jsTrimChars g3) = some bT →
      parseYMDHMChars (jsTrimChars g4) = some eT →
      ¬ (diffMinutes eT bT < 3 ∧ 20 < parseDuration ⟨jsTrimChars g2⟩) →
      correctLine line = (line, false))
  ∧ (matchCorrector line = some (g1, g2, g3, g4) →
      parseYMDHMChars (jsTrimChars g3) = some bT →
      parseYMDHMChars (jsTrimChars g4) = some eT →
      diffMinutes eT bT < 3 → 20 < parseDuration ⟨jsTrimChars g2⟩ →
      correctLine line
        = (g1 ++ "(duration:: ".data ++ jsTrimChars g2 ++ ") (begin:: ".data
            ++ jsTrimChars g3 ++ ") - (end:: ".data
            ++ fmtYMDHMChars
                (addMinutes bT (parseDuration ⟨jsTrimChars g2⟩)) ++ [')'],
           true))
  ∧ ((correctLogContent content).2 = 0 → (correctLogContent content).1 = content)
  ∧ (correctorWritesBack content = true ↔ 0 < (correctLogContent content).2) := by
  refine ⟨?_, ?_, ?_, ?_, ?_, ?_, ?_⟩
  · unfold correctLogContent
    simp only [List.map_map]
    rfl
  · intro hm
    unfold correctLine
    simp [hm]
  · intro hm hp
    unfold correctLine
    rcases hp with hp | hp
    · simp [hm, hp]
    · simp only [hm, hp]
      rcases parseYMDHMChars (jsTrimChars g3) with _ | bT2 <;> simp
  · intro hm hb he2 hneg
    unfold correctLine
    simp only [hm, hb, he2]
    simp [hneg]
  · intro hm hb he2 hd hl
    unfold correctLine
    simp only [hm, hb, he2]
    simp [hd, hl]
  · intro hz
    unfold correctLogContent at hz ⊢
    simp only at hz ⊢
    have hall := List.countP_eq_zero.mp hz
    have hmap : ((splitOnChar '\n' content).map correctLine).map Prod.fst
        = splitOnChar '\n' content := by
      rw [List.map_map]
      apply List.map_congr_left ?_ |>.trans (List.map_id _)
      intro l hl
      have hfalse : (correctLine l).2 = false := by
        have := hall (correctLine l) (List.mem_map_of_mem correctLine hl)
        simpa using this
      exact correctLine_id_of_not_corrected l hfalse
    rw [hmap, joinChar_splitOnChar]
  · simp [correctorWritesBack]

/-! ### Round-trip of the VERBOSE formatter through the corrector regex

Character-class facts about the serialized fields, evaluation lemmas for
`parseDuration` on a serialized duration, and the evaluation of
`matchCorrector` on a canonical formatter-produced line. -/

/-- Characters of a `YYYY-MM-DD HH:mm` rendering. -/
def dtChars : List Char := "0123456789- :".data

theorem decChars_subset_dtChars (c : Char) (h : c ∈ decChars) : c ∈ dtChars := by
  simp only [decChars] at h
  fin_cases h <;> decide

theorem dtChar_facts (c : Char) (h : c ∈ dtChars) : c ≠ '(' ∧ c ≠ ')' := by
  simp only [dtChars] at h
  fin_cases h <;> exact ⟨by decide, by decide⟩

theorem fmtYMDHM_mem (dt : DateTime) :
    ∀ c ∈ fmtYMDHMChars dt, c ∈ dtChars := by
  intro c hc
  unfold fmtYMDHMChars at hc
  simp only [List.mem_append, List.mem_singleton] at hc
  rcases hc with ((((((((hc | hc) | hc) | hc) | hc) | hc) | hc) | hc)) | hc
  · exact decChars_subset_dtChars c (pad4_mem _ c hc)
  · subst hc; decide
  · exact decChars_subset_dtChars c (pad2_mem _ c hc)
  · subst hc; decide
  · exact decChars_subset_dtChars c (pad2_mem _ c hc)
  · subst hc; decide
  · exact decChars_subset_dtChars c (pad2_mem _ c hc)
  · subst hc; decide
  · exact decChars_subset_dtChars c (pad2_mem _ c hc)

theorem paren_not_mem_dec (l : List Char) (h : ∀ c ∈ l, c ∈ decChars) :
    '(' ∉ l := fun hc => (decChar_facts '(' (h _ hc)).2.1 rfl

theorem rparen_not_mem_dec (l : List Char) (h : ∀ c ∈ l, c ∈ decChars) :
    ')' ∉ l := fun hc => (decChar_facts ')' (h _ hc)).2.2.1 rfl

theorem paren_not_mem_dt (l : List Char) (h : ∀ c ∈ l, c ∈ dtChars) :
    '(' ∉ l := fun hc => (dtChar_facts '(' (h _ hc)).1 rfl

theorem rparen_not_mem_dt (l : List Char) (h : ∀ c ∈ l, c ∈ dtChars) :
    ')' ∉ l := fun hc => (dtChar_facts ')' (h _ hc)).2 rfl

theorem takeWhile_all_append (p : Char → Bool) (a b : List Char)
    (h : ∀ c ∈ a, p c = true) :
    (a ++ b).takeWhile p = a ++ b.takeWhile p := by
  induction a with
  | nil => simp
  | cons c a2 ih =>
    rw [List.cons_append, List.takeWhile_cons, h c (List.mem_cons_self c a2)]
    rw [if_pos rfl, ih (fun d hd => h d (List.mem_cons_of_mem c hd))]
    rfl

theorem dropWhile_all_append (p : Char → Bool) (a b : List Char)
    (h : ∀ c ∈ a, p c = true) :
    (a ++ b).dropWhile p = b.dropWhile p := by
  induction a with
  | nil => simp
  | cons c a2 ih =>
    rw [List.cons_append, List.dropWhile_cons, if_pos (h c (List.mem_cons_self c a2)),
      ih (fun d hd => h d (List.mem_cons_of_mem c hd))]

theorem toDigits_ne_nil (n : Nat) : toDigits n ≠ [] := by
  rw [toDigits]
  by_cases h : n < 10 <;> simp [h]

/-- `parseDuration` on a serialized duration field `"{digits}m"`:
the hours regex finds nothing, the minutes regex reads the digit run. -/
theorem parseDuration_digits_m (durC : List Char)
    (hd : ∀ c ∈ durC, c ∈ decChars) (hne : durC ≠ []) :
    parseDuration ⟨durC ++ ['m']⟩ = digitsToNat durC := by
  cases durC with
  | nil => exact absurd rfl hne
  | cons d ds =>
    have hdd : d.isDigit = true :=
      (decChar_facts d (hd d (List.mem_cons_self d ds))).1
    have hds : ∀ c ∈ ds, Char.isDigit c = true :=
      fun c hc => (decChar_facts c (hd c (List.mem_cons_of_mem d hc))).1
    have hdrop : (ds ++ ['m']).dropWhile Char.isDigit = ['m'] := by
      rw [dropWhile_all_append Char.isDigit ds ['m'] hds]
      decide
    have htake : (ds ++ ['m']).takeWhile Char.isDigit = ds := by
      rw [takeWhile_all_append Char.isDigit ds ['m'] hds]
      simp
    have hm : findNumBefore 'm' ((d :: ds) ++ ['m'])
        = some (digitsToNat (d :: ds)) := by
      rw [List.cons_append, findNumBefore]
      simp only [hdd, if_true, hdrop, htake]
      rfl
    have h1 : findNumBefore 'h' ['m'] = none := by
      rw [findNumBefore, if_neg (show ¬ (('m').isDigit = true) by decide)]
      rw [findNumBefore]
    have hh : findNumBefore 'h' ((d :: ds) ++ ['m']) = none := by
      rw [List.cons_append, findNumBefore]
      simp only [hdd, if_true, hdrop]
      rw [show List.dropWhile Char.isWhitespace ['m'] = ['m'] from rfl]
      simp only [show (('m' : Char) = 'h') = False by simp, if_false]
      exact h1
    unfold parseDuration
    simp only []
    rw [hm, hh]
    simp

theorem notOccurs_dur_suffix (durC B E : List Char)
    (hdur : ∀ c ∈ durC, c ∈ decChars)
    (hB : ∀ c ∈ B, c ∈ dtChars) (hE : ∀ c ∈ E, c ∈ dtChars) :
    NotOccurs durLit
      (' ' :: (durC ++ 'm' :: ')' :: ' '
        :: (beginLit ++ (B ++ (endLit ++ (E ++ [')'])))))) := by
  rw [show durLit = '(' :: 'd' :: "uration::".data from by decide,
    show beginLit = '(' :: 'b' :: "egin:: ".data from by decide,
    show endLit = ')' :: ' ' :: '-' :: ' ' :: '(' :: 'e' :: "nd:: ".data
      from by decide]
  simp only [List.cons_append, List.nil_append]
  apply NotOccurs_cons_no
  · exact isPrefixOf_cons_false '(' ' ' _ _ (by decide)
  apply NotOccurs_skip
  · exact paren_not_mem_dec durC hdur
  apply NotOccurs_cons_no
  · exact isPrefixOf_cons_false '(' 'm' _ _ (by decide)
  apply NotOccurs_cons_no
  · exact isPrefixOf_cons_false '(' ')' _ _ (by decide)
  apply NotOccurs_cons_no
  · exact isPrefixOf_cons_false '(' ' ' _ _ (by decide)
  apply NotOccurs_cons_no
  · exact isPrefixOf_cons2_false '(' 'd' '(' 'b' _ _ (Or.inr (by decide))
  apply NotOccurs_cons_no
  · exact isPrefixOf_cons_false '(' 'b' _ _ (by decide)
  apply NotOccurs_cons_no
  · exact isPrefixOf_cons_false '(' 'e' _ _ (by decide)
  apply NotOccurs_cons_no
  · exact isPrefixOf_cons_false '(' 'g' _ _ (by decide)
  apply NotOccurs_cons_no
  · exact isPrefixOf_cons_false '(' 'i' _ _ (by decide)
  apply NotOccurs_cons_no
  · exact isPrefixOf_cons_false '(' 'n' _ _ (by decide)
  apply NotOccurs_cons_no
  · exact isPrefixOf_cons_false '(' ':' _ _ (by decide)
  apply NotOccurs_cons_no
  · exact isPrefixOf_cons_false '(' ':' _ _ (by decide)
  apply NotOccurs_cons_no
  · exact isPrefixOf_cons_false '(' ' ' _ _ (by decide)
  apply NotOccurs_skip
  · exact paren_not_mem_dt B hB
  apply NotOccurs_cons_no
  · exact isPrefixOf_cons_false '(' ')' _ _ (by decide)
  apply NotOccurs_cons_no
  · exact isPrefixOf_cons_false '(' ' ' _ _ (by decide)
  apply NotOccurs_cons_no
  · exact isPrefixOf_cons_false '(' '-' _ _ (by decide)
  apply NotOccurs_cons_no
  · exact isPrefixOf_cons_false '(' ' ' _ _ (by decide)
  apply NotOccurs_cons_no
  · exact isPrefixOf_cons2_false '(' 'd' '(' 'e' _ _ (Or.inr (by decide))
  apply NotOccurs_cons_no
  · exact isPrefixOf_cons_false '(' 'e' _ _ (by decide)
  apply NotOccurs_cons_no
  · exact isPrefixOf_cons_false '(' 'n' _ _ (by decide)
  apply NotOccurs_cons_no
  · exact isPrefixOf_cons_false '(' 'd' _ _ (by decide)
  apply NotOccurs_cons_no
  · exact isPrefixOf_cons_false '(' ':' _ _ (by decide)
  apply NotOccurs_cons_no
  · exact isPrefixOf_cons_false '(' ':' _ _ (by decide)
  apply NotOccurs_cons_no
  · exact isPrefixOf_cons_false '(' ' ' _ _ (by decide)
  apply NotOccurs_skip
  · exact paren_not_mem_dt E hE
  apply NotOccurs_cons_no
  · exact isPrefixOf_cons_false '(' ')' _ _ (by decide)
  exact NotOccurs_nil _ (by decide)

theorem notOccurs_begin_suffix (B E : List Char)
    (hB : ∀ c ∈ B, c ∈ dtChars) (hE : ∀ c ∈ E, c ∈ dtChars) :
    NotOccurs beginLit (B ++ (endLit ++ (E ++ [')']))) := by
  rw [show beginLit = '(' :: 'b' :: "egin:: ".data from by decide,
    show endLit = ')' :: ' ' :: '-' :: ' ' :: '(' :: 'e' :: "nd:: ".data
      from by decide]
  simp only [List.cons_append, List.nil_append]
  apply NotOccurs_skip
  · exact paren_not_mem_dt B hB
  apply NotOccurs_cons_no
  · exact isPrefixOf_cons_false '(' ')' _ _ (by decide)
  apply NotOccurs_cons_no
  · exact isPrefixOf_cons_false '(' ' ' _ _ (by decide)
  apply NotOccurs_cons_no
  · exact isPrefixOf_cons_false '(' '-' _ _ (by decide)
  apply NotOccurs_cons_no
  · exact isPrefixOf_cons_false '(' ' ' _ _ (by decide)
  apply NotOccurs_cons_no
  · exact isPrefixOf_cons2_false '(' 'b' '(' 'e' _ _ (Or.inr (by decide))
  apply NotOccurs_cons_no
  · exact isPrefixOf_cons_false '(' 'e' _ _ (by decide)
  apply NotOccurs_cons_no
  · exact isPrefixOf_cons_false '(' 'n' _ _ (by decide)
  apply NotOccurs_cons_no
  · exact isPrefixOf_cons_false '(' 'd' _ _ (by decide)
  apply NotOccurs_cons_no
  · exact isPrefixOf_cons_false '(' ':' _ _ (by decide)
  apply NotOccurs_cons_no
  · exact isPrefixOf_cons_false '(' ':' _ _ (by decide)
  apply NotOccurs_cons_no
  · exact isPrefixOf_cons_false '(' ' ' _ _ (by decide)
  apply NotOccurs_skip
  · exact paren_not_mem_dt E hE
  apply NotOccurs_cons_no
  · exact isPrefixOf_cons_false '(' ')' _ _ (by decide)
  exact NotOccurs_nil _ (by decide)

theorem findSplits_dur_canonical (tid durC B E : List Char)
    (htid : '(' ∉ tid)
    (hdur : ∀ c ∈ durC, c ∈ decChars)
    (hB : ∀ c ∈ B, c ∈ dtChars) (hE : ∀ c ∈ E, c ∈ dtChars) :
    findSplits durLit
      (' ' :: '(' :: 't' :: 'a' :: 's' :: 'k' :: 'I' :: 'D' :: ':' :: ':' :: ' '
        :: (tid ++ (')' :: ' ' :: (durLit
          ++ (' ' :: (durC ++ 'm' :: ')' :: ' '
            :: (beginLit ++ (B ++ (endLit ++ (E ++ [')']))))))))))
      = [(' ' :: '(' :: 't' :: 'a' :: 's' :: 'k' :: 'I' :: 'D' :: ':' :: ':' :: ' '
            :: (tid ++ [')', ' ']),
          ' ' :: (durC ++ 'm' :: ')' :: ' '
            :: (beginLit ++ (B ++ (endLit ++ (E ++ [')']))))))] := by
  have hno : findSplits durLit
      (' ' :: (durC ++ 'm' :: ')' :: ' '
        :: (beginLit ++ (B ++ (endLit ++ (E ++ [')'])))))) = [] :=
    notOccurs_dur_suffix durC B E hdur hB hE
  rw [show durLit = '(' :: 'd' :: "uration::".data from by decide] at hno ⊢
  simp only [List.cons_append, List.nil_append]
  rw [findSplits_cons_no _ _ _ (isPrefixOf_cons_false '(' ' ' _ _ (by decide))]
  rw [findSplits_cons_no _ _ _
    (isPrefixOf_cons2_false '(' 'd' '(' 't' _ _ (Or.inr (by decide)))]
  rw [findSplits_cons_no _ _ _ (isPrefixOf_cons_false '(' 't' _ _ (by decide))]
  rw [findSplits_cons_no _ _ _ (isPrefixOf_cons_false '(' 'a' _ _ (by decide))]
  rw [findSplits_cons_no _ _ _ (isPrefixOf_cons_false '(' 's' _ _ (by decide))]
  rw [findSplits_cons_no _ _ _ (isPrefixOf_cons_false '(' 'k' _ _ (by decide))]
  rw [findSplits_cons_no _ _ _ (isPrefixOf_cons_false '(' 'I' _ _ (by decide))]
  rw [findSplits_cons_no _ _ _ (isPrefixOf_cons_false '(' 'D' _ _ (by decide))]
  rw [findSplits_cons_no _ _ _ (isPrefixOf_cons_false '(' ':' _ _ (by decide))]
  rw [findSplits_cons_no _ _ _ (isPrefixOf_cons_false '(' ':' _ _ (by decide))]
  rw [findSplits_cons_no _ _ _ (isPrefixOf_cons_false '(' ' ' _ _ (by decide))]
  rw [findSplits_skip '(' ('d' :: "uration::".data) tid _ htid]
  rw [findSplits_cons_no _ _ _ (isPrefixOf_cons_false '(' ')' _ _ (by decide))]
  rw [findSplits_cons_no _ _ _ (isPrefixOf_cons_false '(' ' ' _ _ (by decide))]
  rw [show ('(' :: 'd' :: 'u' :: 'r' :: 'a' :: 't' :: 'i' :: 'o' :: 'n' :: ':'
      :: ':' :: ' ' :: (durC ++ 'm' :: ')' :: ' '
        :: (beginLit ++ (B ++ (endLit ++ (E ++ [')']))))))
    = ('(' :: 'd' :: "uration::".data) ++ (' ' :: (durC ++ 'm' :: ')' :: ' '
        :: (beginLit ++ (B ++ (endLit ++ (E ++ [')']))))))
    from rfl]
  rw [findSplits_here '(' ('d' :: "uration::".data) _]
  rw [show (('d' :: "uration::".data) ++ (' ' :: (durC ++ 'm' :: ')' :: ' '
        :: (beginLit ++ (B ++ (endLit ++ (E ++ [')'])))))))
    = 'd' :: ("uration::".data ++ (' ' :: (durC ++ 'm' :: ')' :: ' '
        :: (beginLit ++ (B ++ (endLit ++ (E ++ [')']))))))) from rfl]
  rw [findSplits_cons_no _ _ _ (isPrefixOf_cons_false '(' 'd' _ _ (by decide))]
  rw [findSplits_skip '(' ('d' :: "uration::".data) ("uration::".data) _
    (by decide)]
  rw [hno]
  simp

theorem findSplits_self_head (pat b : List Char) (h : pat ≠ []) :
    ∃ t, findSplits pat (pat ++ b) = ([], b) :: t := by
  cases pat with
  | nil => exact absurd rfl h
  | cons p0 pr => exact ⟨_, findSplits_here p0 pr b⟩

theorem findSplits_begin_canonical (B E : List Char)
    (hB : ∀ c ∈ B, c ∈ dtChars) (hE : ∀ c ∈ E, c ∈ dtChars) :
    findSplits beginLit (' ' :: (beginLit ++ (B ++ (endLit ++ (E ++ [')'])))))
      = [([' '], B ++ (endLit ++ (E ++ [')'])))] := by
  have hno := notOccurs_begin_suffix B E hB hE
  rw [show beginLit = '(' :: 'b' :: "egin:: ".data from by decide] at hno ⊢
  refine findSplits_single '(' ('b' :: "egin:: ".data) [' ']
    (B ++ (endLit ++ (E ++ [')']))) (by decide) ?_
  simp only [List.cons_append, List.nil_append]
  apply NotOccurs_cons_no
  · exact isPrefixOf_cons_false '(' 'b' _ _ (by decide)
  apply NotOccurs_cons_no
  · exact isPrefixOf_cons_false '(' 'e' _ _ (by decide)
  apply NotOccurs_cons_no
  · exact isPrefixOf_cons_false '(' 'g' _ _ (by decide)
  apply NotOccurs_cons_no
  · exact isPrefixOf_cons_false '(' 'i' _ _ (by decide)
  apply NotOccurs_cons_no
  · exact isPrefixOf_cons_false '(' 'n' _ _ (by decide)
  apply NotOccurs_cons_no
  · exact isPrefixOf_cons_false '(' ':' _ _ (by decide)
  apply NotOccurs_cons_no
  · exact isPrefixOf_cons_false '(' ':' _ _ (by decide)
  apply NotOccurs_cons_no
  · exact isPrefixOf_cons_false '(' ' ' _ _ (by decide)
  exact hno

theorem pad2_ne_nil (n : Nat) : pad2 n ≠ [] := by
  unfold pad2
  split
  · simp
  · exact toDigits_ne_nil n

theorem pad4_ne_nil (n : Nat) : pad4 n ≠ [] := by
  unfold pad4
  split
  · simp
  · split
    · simp
    · split
      · simp
      · exact toDigits_ne_nil n

/-- Template-literal interpolation of a nonnegative number never prints a
sign. -/
theorem intChars_nonneg (i : Int) (h : 0 ≤ i) :
    intChars i = toDigits i.toNat := by
  unfold intChars
  rw [if_neg (by omega)]

/-- A serialized `YYYY-MM-DD HH:mm` timestamp survives `.trim()`
unchanged: it starts and ends with a digit. -/
theorem jsTrim_fmt (dt : DateTime) :
    jsTrimChars (fmtYMDHMChars dt) = fmtYMDHMChars dt := by
  rcases hp : pad4 dt.year with _ | ⟨c, cs⟩
  · exact absurd hp (pad4_ne_nil dt.year)
  rcases hq : (pad2 dt.minute).reverse with _ | ⟨d, ds⟩
  · exact absurd (by simpa using congrArg List.reverse hq)
      (pad2_ne_nil dt.minute)
  have hcmem : c ∈ decChars := pad4_mem dt.year c (hp ▸ List.mem_cons_self c cs)
  have hdmem : d ∈ decChars := pad2_mem dt.minute d
    (by
      have hd2 : d ∈ (pad2 dt.minute).reverse := hq ▸ List.mem_cons_self d ds
      simpa using hd2)
  apply jsTrimChars_id
  · rw [fmtYMDHMChars, hp]
    simp
  · intro e he
    rw [fmtYMDHMChars, hp] at he
    simp only [List.cons_append, List.head?_cons, Option.some.injEq] at he
    rw [← he]
    exact (decChar_facts c hcmem).2.2.2.1
  · intro e he
    rw [fmtYMDHMChars, ← List.head?_reverse] at he
    simp only [List.reverse_append] at he
    rw [hq] at he
    simp only [List.cons_append, List.head?_cons, Option.some.injEq] at he
    rw [← he]
    exact (decChar_facts d hdmem).2.2.2.1

/-- The serialized duration group `" {digits}m"` trims to `"{digits}m"`. -/
theorem jsTrim_dur (n : Nat) :
    jsTrimChars (' ' :: (toDigits n ++ ['m'])) = toDigits n ++ ['m'] := by
  rw [jsTrimChars_cons_ws ' ' _ (by decide)]
  rcases hp : toDigits n with _ | ⟨c, cs⟩
  · exact absurd hp (toDigits_ne_nil n)
  have hcmem : c ∈ decChars := toDigits_mem n c (hp ▸ List.mem_cons_self c cs)
  apply jsTrimChars_id
  · simp
  · intro e he
    simp only [List.cons_append, List.head?_cons, Option.some.injEq] at he
    rw [← he]
    exact (decChar_facts c hcmem).2.2.2.1
  · intro e he
    rw [← List.head?_reverse, List.reverse_append] at he
    rw [show (['m'] : List Char).reverse = ['m'] from rfl] at he
    simp only [List.cons_append, List.head?_cons, Option.some.injEq] at he
    rw [← he]
    decide

theorem data_append (s t : String) : (s ++ t).data = s.data ++ t.data := rfl

theorem fmtYMDHM_data (dt : DateTime) :
    (fmtYMDHM dt).data = fmtYMDHMChars dt := rfl

theorem intStr_data (i : Int) : (intStr i).data = intChars i := rfl

/-- `matchCorrector` evaluated on a line in canonical VERBOSE shape: the
regex matches, greedy group 1 swallows the taskID field, lazy group 2 is
the raw duration text, and groups 3/4 are the raw begin/end timestamps. -/
theorem matchCorrector_canonical (tid durC B E : List Char)
    (htid : '(' ∉ tid)
    (hdur : ∀ c ∈ durC, c ∈ decChars)
    (hB : ∀ c ∈ B, c ∈ dtChars) (hE : ∀ c ∈ E, c ∈ dtChars) :
    matchCorrector
      (workLineLit
        ++ (' ' :: '(' :: 't' :: 'a' :: 's' :: 'k' :: 'I' :: 'D' :: ':' :: ':' :: ' '
          :: (tid ++ (')' :: ' ' :: (durLit
            ++ (' ' :: (durC ++ 'm' :: ')' :: ' '
              :: (beginLit ++ (B ++ (endLit ++ (E ++ [')'])))))))))))
      = some (workLineLit
            ++ (' ' :: '(' :: 't' :: 'a' :: 's' :: 'k' :: 'I' :: 'D' :: ':' :: ':' :: ' '
              :: (tid ++ [')', ' '])),
          ' ' :: (durC ++ ['m']), B, E) := by
  obtain ⟨t1, ht1⟩ := findSplits_self_head workLineLit
    (' ' :: '(' :: 't' :: 'a' :: 's' :: 'k' :: 'I' :: 'D' :: ':' :: ':' :: ' '
      :: (tid ++ (')' :: ' ' :: (durLit
        ++ (' ' :: (durC ++ 'm' :: ')' :: ' '
          :: (beginLit ++ (B ++ (endLit ++ (E ++ [')'])))))))))) (by decide)
  unfold matchCorrector
  rw [ht1]
  refine firstSome_cons_some _ _ _ _ ?_
  dsimp only
  rw [findSplits_dur_canonical tid durC B E htid hdur hB hE]
  rw [show ([(' ' :: '(' :: 't' :: 'a' :: 's' :: 'k' :: 'I' :: 'D' :: ':' :: ':' :: ' '
        :: (tid ++ [')', ' ']),
      ' ' :: (durC ++ 'm' :: ')' :: ' '
        :: (beginLit ++ (B ++ (endLit ++ (E ++ [')']))))))] : List _).reverse
    = [(' ' :: '(' :: 't' :: 'a' :: 's' :: 'k' :: 'I' :: 'D' :: ':' :: ':' :: ' '
        :: (tid ++ [')', ' ']),
      ' ' :: (durC ++ 'm' :: ')' :: ' '
        :: (beginLit ++ (B ++ (endLit ++ (E ++ [')']))))))] from by simp]
  rw [firstSome_single]
  dsimp only
  rw [show (' ' :: (durC ++ 'm' :: ')' :: ' '
        :: (beginLit ++ (B ++ (endLit ++ (E ++ [')']))))))
    = (' ' :: (durC ++ ['m']))
        ++ ((')' :: []) ++ (' ' :: (beginLit ++ (B ++ (endLit ++ (E ++ [')']))))))
    from by simp]
  rw [findSplits_firstAt ')' [] (' ' :: (durC ++ ['m']))
    (' ' :: (beginLit ++ (B ++ (endLit ++ (E ++ [')'])))))
    (by
      intro hmem
      rcases List.mem_cons.mp hmem with h | h
      · exact absurd h (by decide)
      rcases List.mem_append.mp h with h | h
      · exact rparen_not_mem_dec durC hdur h
      · exact absurd h (by decide))]
  refine firstSome_cons_some _ _ _ _ ?_
  dsimp only
  rw [findSplits_begin_canonical B E hB hE]
  rw [show ([([' '], B ++ (endLit ++ (E ++ [')'])))] : List _).reverse
    = [([' '], B ++ (endLit ++ (E ++ [')'])))] from by simp]
  rw [firstSome_single]
  dsimp only
  rw [show endLit = ')' :: ' ' :: '-' :: ' ' :: '(' :: 'e' :: "nd:: ".data
    from by decide]
  rw [findSplits_firstAt ')' (' ' :: '-' :: ' ' :: '(' :: 'e' :: "nd:: ".data)
    B (E ++ [')']) (rparen_not_mem_dt B hB)]
  refine firstSome_cons_some _ _ _ _ ?_
  dsimp only
  rw [show (E ++ [')'] : List Char) = E ++ ((')' :: []) ++ ([] : List Char))
    from by simp]
  rw [findSplits_firstAt ')' [] E [] (rparen_not_mem_dt E hE)]

/-- The VERBOSE line of a finished WORK session, decomposed into the
canonical shape the corrector's regex is evaluated on. -/
theorem toText_verbose_data (log : TimerLog)
    (hf : log.finished = true) (hm : log.mode = Mode.WORK) :
    (toText LogFormat.VERBOSE log).data
      = workLineLit
          ++ (' ' :: '(' :: 't' :: 'a' :: 's' :: 'k' :: 'I' :: 'D' :: ':' :: ':' :: ' '
            :: ((taskIdOf log.task.blockLink).data ++ (')' :: ' ' :: (durLit
              ++ (' ' :: (intChars log.duration ++ 'm' :: ')' :: ' '
                :: (beginLit ++ (fmtYMDHMChars log.begin
                  ++ (endLit ++ (fmtYMDHMChars log.endTime ++ [')'])))))))))) := by
  unfold toText
  dsimp only
  rw [hm]
  rw [if_neg (by simp [hf])]
  rw [show emojiOf Mode.WORK = "🍅" from rfl,
    show modeStr Mode.WORK = "WORK" from rfl]
  simp only [data_append, fmtYMDHM_data, intStr_data]
  simp only [workLineLit, durLit, beginLit, endLit]
  simp only [List.cons_append, List.append_assoc, List.nil_append]

/-- C7: round-trip between the VERBOSE formatter and the corrector — for
every finished WORK session whose timestamps fit the fixed-width
rendering (and whose taskID holds no `'('`), the formatted line matches
the corrector's regex with group 2 the serialized duration, group 3 the
serialized begin timestamp and group 4 the serialized end timestamp; the
corrector then re-parses from those groups exactly the duration the
formatter serialized (`floor(elapsed / 60000)` minutes) and the begin/end
timestamps truncated to minute precision. -/
theorem C7_verbose_roundtrip (ctx : TimerState) (task : TaskItem)
    (bT eT : DateTime)
    (hfin : ctx.count = ctx.elapsed) (hpos : 0 ≤ ctx.elapsed)
    (hmode : ctx.mode = Mode.WORK)
    (hvb : ValidYMDHM bT) (hve : ValidYMDHM eT)
    (htid : '(' ∉ (taskIdOf task.blockLink).data) :
    matchCorrector (toText LogFormat.VERBOSE (createLog ctx task bT eT)).data
      = some (workLineLit
            ++ (' ' :: '(' :: 't' :: 'a' :: 's' :: 'k' :: 'I' :: 'D' :: ':' :: ':' :: ' '
              :: ((taskIdOf task.blockLink).data ++ [')', ' '])),
          ' ' :: (intChars (Int.fdiv ctx.elapsed 60000) ++ ['m']),
          fmtYMDHMChars bT, fmtYMDHMChars eT)
    ∧ (parseDuration
        ⟨jsTrimChars (' ' :: (intChars (Int.fdiv ctx.elapsed 60000) ++ ['m']))⟩ : Int)
        = Int.fdiv ctx.elapsed 60000
    ∧ parseYMDHMChars (jsTrimChars (fmtYMDHMChars bT)) = some (truncMinute bT)
    ∧ parseYMDHMChars (jsTrimChars (fmtYMDHMChars eT)) = some (truncMinute eT) := by
  have hd0 : 0 ≤ Int.fdiv ctx.elapsed 60000 := Int.fdiv_nonneg hpos (by norm_num)
  have hic : intChars (Int.fdiv ctx.elapsed 60000)
      = toDigits (Int.fdiv ctx.elapsed 60000).toNat := intChars_nonneg _ hd0
  refine ⟨?_, ?_, ?_, ?_⟩
  · rw [toText_verbose_data (createLog ctx task bT eT)
      (by simp [createLog, hfin]) (by simp [createLog, hmode])]
    simp only [createLog]
    exact matchCorrector_canonical (taskIdOf task.blockLink).data
      (intChars (Int.fdiv ctx.elapsed 60000)) (fmtYMDHMChars bT)
      (fmtYMDHMChars eT) htid (by rw [hic]; exact toDigits_mem _)
      (fmtYMDHM_mem bT) (fmtYMDHM_mem eT)
  · rw [hic, jsTrim_dur,
      parseDuration_digits_m _ (toDigits_mem _) (toDigits_ne_nil _),
      digitsToNat_toDigits]
    exact Int.toNat_of_nonneg hd0
  · rw [jsTrim_fmt, parse_fmt_roundtrip bT hvb]
  · rw [jsTrim_fmt, parse_fmt_roundtrip eT hve]

/-- C7 witness: a finished 25-minute WORK session beginning 2024-01-01
10:00 and ending 10:25; the formatted line matches and the re-parsed
values are exactly the serialized ones. -/
theorem C7_verbose_roundtrip_witness :
    matchCorrector
      (toText LogFormat.VERBOSE
        (createLog
          { autostart := false, running := false, mode := Mode.WORK,
            elapsed := 1500000, startTime := some 0, inSession := true,
            workLen := 25, breakLen := 5, count := 1500000, duration := 25 }
          DEFAULT_TASK ⟨2024, 1, 1, 10, 0, 0⟩ ⟨2024, 1, 1, 10, 25, 0⟩)).data
      = some (workLineLit
            ++ (' ' :: '(' :: 't' :: 'a' :: 's' :: 'k' :: 'I' :: 'D' :: ':' :: ':' :: ' '
              :: ((taskIdOf DEFAULT_TASK.blockLink).data ++ [')', ' '])),
          ' ' :: (intChars (Int.fdiv 1500000 60000) ++ ['m']),
          fmtYMDHMChars ⟨2024, 1, 1, 10, 0, 0⟩,
          fmtYMDHMChars ⟨2024, 1, 1, 10, 25, 0⟩)
    ∧ (parseDuration
        ⟨jsTrimChars (' ' :: (intChars (Int.fdiv 1500000 60000) ++ ['m']))⟩ : Int)
        = Int.fdiv 1500000 60000
    ∧ parseYMDHMChars (jsTrimChars (fmtYMDHMChars ⟨2024, 1, 1, 10, 0, 0⟩))
        = some (truncMinute ⟨2024, 1, 1, 10, 0, 0⟩)
    ∧ parseYMDHMChars (jsTrimChars (fmtYMDHMChars ⟨2024, 1, 1, 10, 25, 0⟩))
        = some (truncMinute ⟨2024, 1, 1, 10, 25, 0⟩) :=
  C7_verbose_roundtrip
    { autostart := false, running := false, mode := Mode.WORK,
      elapsed := 1500000, startTime := some 0, inSession := true,
      workLen := 25, breakLen := 5, count := 1500000, duration := 25 }
    DEFAULT_TASK ⟨2024, 1, 1, 10, 0, 0⟩ ⟨2024, 1, 1, 10, 25, 0⟩
    (by decide) (by decide) rfl (by decide) (by decide) (by decide)

/-- C6 witness (the spec's Scenario D shape): a tab-indented VERBOSE WORK
line logging 30 minutes whose end time sits 1 minute after begin is
rewritten with end = begin + 30 minutes (the rebuilt line drops the
indentation, as the source template does). -/
theorem C6_corrector_spec_witness :
    correctLine ("\t- 🍅 (pomodoro::WORK) (taskID:: abc1) (duration:: 30m) (begin:: 2024-01-01 10:00) - (end:: 2024-01-01 10:01)".data)
      = ("- 🍅 (pomodoro::WORK) (taskID:: abc1) (duration:: 30m) (begin:: 2024-01-01 10:00) - (end:: 2024-01-01 10:30)".data,
         true) := by
  have hdur : parseDuration ⟨jsTrimChars " 30m".data⟩ = 30 := by
    simp [jsTrimChars, parseDuration, findNumBefore, digitsToNat, digitVal]
  have h := (C6_corrector_spec []
      ("\t- 🍅 (pomodoro::WORK) (taskID:: abc1) (duration:: 30m) (begin:: 2024-01-01 10:00) - (end:: 2024-01-01 10:01)".data)
      ("- 🍅 (pomodoro::WORK) (taskID:: abc1) ".data) (" 30m".data)
      ("2024-01-01 10:00".data) ("2024-01-01 10:01".data)
      ⟨2024, 1, 1, 10, 0, 0⟩ ⟨2024, 1, 1, 10, 1, 0⟩).2.2.2.2.1
    (by decide) (by decide) (by decide) (by decide) (by rw [hdur]; decide)
  rw [h, hdur]
  have haddm : addMinutes ⟨2024, 1, 1, 10, 0, 0⟩ 30 = ⟨2024, 1, 1, 10, 30, 0⟩ := by
    decide
  rw [haddm]
  simp only [fmtYMDHMChars, pad4_eq 2024 (by omega), pad2_eq 1 (by omega),
    pad2_eq 10 (by omega), pad2_eq 30 (by omega)]
  decide

/-- C10 witness: blockLink `"^abc1"` renders taskID `"abc1"`; an empty
blockLink renders `"N/A"` and the finished VERBOSE line is non-empty. -/
theorem C10_taskId_amended_witness :
    taskIdOf "^abc1" = "abc1"
    ∧ taskIdOf "" = "N/A"
    ∧ toText LogFormat.VERBOSE
      { duration := 25, begin := ⟨2024, 1, 1, 10, 0, 0⟩,
        endTime := ⟨2024, 1, 1, 10, 25, 0⟩, mode := Mode.WORK,
        session := 25, task := DEFAULT_TASK, finished := true } ≠ "" := by
  refine ⟨?_, ?_, ?_⟩
  · exact (C10_taskId_amended "^abc1" "abc1"
      { duration := 25, begin := ⟨2024, 1, 1, 10, 0, 0⟩,
        endTime := ⟨2024, 1, 1, 10, 25, 0⟩, mode := Mode.WORK,
        session := 25, task := DEFAULT_TASK, finished := true }).2.2.1 rfl
  · exact (C10_taskId_amended "" ""
      { duration := 25, begin := ⟨2024, 1, 1, 10, 0, 0⟩,
        endTime := ⟨2024, 1, 1, 10, 25, 0⟩, mode := Mode.WORK,
        session := 25, task := DEFAULT_TASK, finished := true }).1 rfl
  · exact (C10_taskId_amended "" ""
      { duration := 25, begin := ⟨2024, 1, 1, 10, 0, 0⟩,
        endTime := ⟨2024, 1, 1, 10, 25, 0⟩, mode := Mode.WORK,
        session := 25, task := DEFAULT_TASK, finished := true }).2.2.2 rfl rfl

/-! ### Task parsing (`resolveTasks` in `Tasks.ts`)

The per-line loop body of `resolveTasks` is embedded from the source in
`part_002`; its two collaborators missing from `src/`
(`extractTaskComponents` of `utils.ts` and the dialect deserializer of
`serializer.ts`) are modelled from the spec. -/

theorem decChar_not_sign (c : Char) (h : c ∈ decChars) :
    c ≠ '-' ∧ c ≠ '+' := by
  simp only [decChars] at h
  fin_cases h <;> exact ⟨by decide, by decide⟩

/-- JS `parseInt(s)`: skip leading whitespace, an optional sign, then
read the leading digit run; `NaN` (`none`) when no digit follows. -/
def jsParseInt (l : List Char) : Option Int :=
  match l.dropWhile Char.isWhitespace with
  | [] => none
  | s :: rest =>
    if s = '-' then
      if rest.takeWhile Char.isDigit = [] then none
      else some (-(digitsToNat (rest.takeWhile Char.isDigit) : Int))
    else if s = '+' then
      if rest.takeWhile Char.isDigit = [] then none
      else some ((digitsToNat (rest.takeWhile Char.isDigit) : Int))
    else
      if (s :: rest).takeWhile Char.isDigit = [] then none
      else some ((digitsToNat ((s :: rest).takeWhile Char.isDigit) : Int))

theorem jsParseInt_digits (l : List Char) (hd : ∀ c ∈ l, c ∈ decChars)
    (hne : l ≠ []) : jsParseInt l = some ((digitsToNat l : Int)) := by
  cases l with
  | nil => exact absurd rfl hne
  | cons x xs =>
    have hx := decChar_facts x (hd x (List.mem_cons_self x xs))
    have hxsgn := decChar_not_sign x (hd x (List.mem_cons_self x xs))
    have hall : ∀ c ∈ x :: xs, Char.isDigit c = true := fun c hc =>
      (decChar_facts c (hd c hc)).1
    have htake : (x :: xs).takeWhile Char.isDigit = x :: xs := by
      have h2 := takeWhile_all_append Char.isDigit (x :: xs) [] hall
      simpa using h2
    unfold jsParseInt
    rw [List.dropWhile_cons, if_neg (by simp [hx.2.2.2.1])]
    dsimp only
    rw [if_neg hxsgn.1, if_neg hxsgn.2, htake]
    simp

theorem splitOnChar_not_mem (c : Char) (l : List Char) (h : c ∉ l) :
    splitOnChar c l = [l] := by
  induction l with
  | nil => rfl
  | cons x xs ih =>
    have hx : ¬ x = c := fun he => h (he ▸ List.mem_cons_self x xs)
    have h2 : c ∉ xs := fun hm => h (List.mem_cons_of_mem x hm)
    simp only [splitOnChar, hx, if_false]
    rw [ih h2]

theorem splitOnChar_append_cons (c : Char) (a b : List Char) (h : c ∉ a) :
    splitOnChar c (a ++ c :: b) = a :: splitOnChar c b := by
  induction a with
  | nil =>
    simp only [List.nil_append, splitOnChar, if_pos]
  | cons x xs ih =>
    have hx : ¬ x = c := fun he => h (he ▸ List.mem_cons_self x xs)
    have h2 : c ∉ xs := fun hm => h (List.mem_cons_of_mem x hm)
    rw [List.cons_append]
    simp only [splitOnChar, hx, if_false]
    rw [ih h2]

/-- `resolveTasks` count extraction:
`let [actual, expected] = detail.pomodoros.split('/')`,
`expected: expected ? parseInt(expected) : 0`,
`actual: actual === '' ? 0 : parseInt(actual)` — the left side of the
split with the empty string defaulting to 0, the right side defaulting
to 0 when absent or empty (JS falsiness of `undefined` and `''`). -/
def pomodoroCounts (pomodoros : List Char) : Option Int × Option Int :=
  match splitOnChar '/' pomodoros with
  | [] => (some 0, some 0)
  | a :: rest =>
    (if a = [] then some 0 else jsParseInt a,
     match rest with
     | [] => some 0
     | e :: _ => if e = [] then some 0 else jsParseInt e)

/-- Modelled from the spec: the components triple extracted from a task
line — status marker, free-text body, trailing block anchor. -/
structure TaskComponents where
  status : String
  body : List Char
  blockLink : String
deriving DecidableEq, Repr

/-- Modelled from the spec: the line-shape grammar of a checkable task —
a leading indent, a status-bracket token `- [x] `, then the body, then an
optional trailing `^token` (kept with its caret, as `Logger` strips the
caret itself); a line not of this shape is skipped. -/
def extractTaskComponents (line : List Char) : Option TaskComponents :=
  match line.dropWhile Char.isWhitespace with
  | '-' :: ' ' :: '[' :: st :: ']' :: ' ' :: body =>
    let tok := ((body.reverse.takeWhile (fun c => !c.isWhitespace))).reverse
    match tok with
    | '^' :: _ :: _ =>
      some { status := ⟨[st]⟩, blockLink := ⟨tok⟩,
             body := jsTrimChars
               (body.reverse.dropWhile (fun c => !c.isWhitespace)).reverse }
    | _ => some { status := ⟨[st]⟩, blockLink := "", body := body }
  | _ => none

/-- Modelled from the spec: the fields the dialect deserializer hands
back that this development uses — the cleaned description and the raw
`actual/expected` pomodoro-count field. -/
structure TaskDetail where
  description : String
  pomodoros : List Char
deriving DecidableEq, Repr

/-- Modelled from the spec: the dialect deserializer extracts the inline
`(actual/expected:: …)` field from the body and strips it to produce a
clean description; a body without the field yields an empty count
string. -/
def deserializeBody (body : List Char) : TaskDetail :=
  match findSplits "(actual/expected:: ".data body with
  | [] => { description := ⟨jsTrimChars body⟩, pomodoros := [] }
  | (pre, post) :: _ =>
    match findSplits [')'] post with
    | [] => { description := ⟨jsTrimChars body⟩, pomodoros := [] }
    | (v, rest) :: _ =>
      { description := ⟨jsTrimChars (pre ++ rest)⟩, pomodoros := v }

/-- The loop body of `resolveTasks` for one list item: skipped when the
raw checkbox marker is falsy (`if (rawElement.task)`) or when the line
does not extract; otherwise the `TaskItem` literal of the source, with
`checked = rawElement.task != '' && rawElement.task != ' '` and the
pomodoro counts from `pomodoroCounts`.  The date fields enter as `''`
(no date annotation is modelled). -/
def resolveTaskLine (rawTask : String) (lineNr : Int) (path fileName : String)
    (line : List Char) : Option TaskItem :=
  if rawTask = "" then none
  else
    match extractTaskComponents line with
    | none => none
    | some comps =>
      let detail := deserializeBody comps.body
      let counts := pomodoroCounts detail.pomodoros
      some { text := ⟨line⟩, path := path, fileName := fileName,
             name := detail.description, status := comps.status,
             blockLink := comps.blockLink,
             checked := decide (rawTask ≠ "" ∧ rawTask ≠ " "),
             description := detail.description,
             done := "", due := "", created := "", cancelled := "",
             scheduled := "", start := "", priority := "", recurrence := "",
             expected := counts.2, actual := counts.1,
             tags := [], line := lineNr }

/-- C8: the pomodoros field splits on `/` — the left side parses as the
actual count with the empty string defaulting to 0, the right side as
the expected count, defaulting to 0 when absent or empty; and the
scenario line `- [ ] Write report (actual/expected:: 2/5) ^abc1`
resolves to a task record with actual 2, expected 5, blockLink `^abc1`,
checked false. -/
theorem C8_pomodoro_parsing (a b p : List Char)
    (ha : '/' ∉ a) (hb : '/' ∉ b) (hp : '/' ∉ p) (hpne : p ≠ []) :
    pomodoroCounts (a ++ '/' :: b)
        = (if a = [] then some 0 else jsParseInt a,
           if b = [] then some 0 else jsParseInt b)
    ∧ pomodoroCounts p = (jsParseInt p, some 0)
    ∧ pomodoroCounts [] = (some 0, some 0)
    ∧ resolveTaskLine " " 7 "notes.md" "notes.md"
        "- [ ] Write report (actual/expected:: 2/5) ^abc1".data
      = some { text := "- [ ] Write report (actual/expected:: 2/5) ^abc1",
               path := "notes.md", fileName := "notes.md",
               name := "Write report", status := " ",
               blockLink := "^abc1", checked := false,
               description := "Write report",
               done := "", due := "", created := "", cancelled := "",
               scheduled := "", start := "", priority := "", recurrence := "",
               expected := some 5, actual := some 2, tags := [], line := 7 } := by
  refine ⟨?_, ?_, ?_, ?_⟩
  · unfold pomodoroCounts
    rw [splitOnChar_append_cons '/' a b ha, splitOnChar_not_mem '/' b hb]
  · unfold pomodoroCounts
    rw [splitOnChar_not_mem '/' p hp]
    dsimp only
    rw [if_neg hpne]
  · decide
  · decide

/-- C8 witness: counts `2/5` resolve to actual 2 and expected 5, and the
scenario line yields the expected record. -/
theorem C8_pomodoro_parsing_witness :
    pomodoroCounts (['2'] ++ '/' :: ['5'])
        = (if (['2'] : List Char) = [] then some 0 else jsParseInt ['2'],
           if (['5'] : List Char) = [] then some 0 else jsParseInt ['5'])
    ∧ resolveTaskLine " " 7 "notes.md" "notes.md"
        "- [ ] Write report (actual/expected:: 2/5) ^abc1".data
      = some { text := "- [ ] Write report (actual/expected:: 2/5) ^abc1",
               path := "notes.md", fileName := "notes.md",
               name := "Write report", status := " ",
               blockLink := "^abc1", checked := false,
               description := "Write report",
               done := "", due := "", created := "", cancelled := "",
               scheduled := "", start := "", priority := "", recurrence := "",
               expected := some 5, actual := some 2, tags := [], line := 7 } :=
  ⟨(C8_pomodoro_parsing ['2'] ['5'] ['3']
      (by decide) (by decide) (by decide) (by decide)).1,
   (C8_pomodoro_parsing ['2'] ['5'] ['3']
      (by decide) (by decide) (by decide) (by decide)).2.2.2⟩

end Pomodoro
